import Mathlib

/-!
# Inventory Management Program (`CPP_Chapter_12_13.cpp`)

A shallow embedding of the two operations `addRecord` and `displayRecord`
together with the part of the C++ stream library they rely on.

Modelling conventions.

* A stream is the list of characters still to be read plus its `failbit`
  and `eofbit`.  Each embedded function returns the text it writes to `cout`.
* `addRecord` and `displayRecord` are called from the menu loop right after
  `cin >> choice`, so the console input they see starts with the rest of the
  line that held the menu choice, normally a single newline.
* Formatted extraction follows the C++11 rules: when the stream is not
  usable (the sentry fails) the target variable keeps its old value, when
  the characters do not form a number the value `0` is stored, and an
  `int` out of range is stored as the nearest bound; in the last two cases
  `failbit` is set.
* A numeric field is read with the grammar of `num_get` in the "C" locale:
  sign, digits, and for a `double` a decimal point and an exponent.
* `int` is a 32 bit two's complement integer.
* `double` is IEEE binary64 without infinities and NaN: a sign and a natural
  number of units of `2 ^ -1074`, the spacing of the smallest doubles, of
  which every finite double is a multiple.  Reading a numeral rounds its
  exact decimal value to the nearest double, ties to even, and a value that
  rounds beyond the largest double sets `failbit` and stores the largest
  double; writing rounds the exact binary value to the requested digits,
  ties to even.
* Local variables that the C++ code leaves uninitialised are parameters
  (`junk`) of the embedded functions.
-/

namespace Inventory

/-! ## Characters and numerals -/

/-- The characters `isspace` accepts in the "C" locale. -/
def isSpace (c : Char) : Bool :=
  c.toNat == 32 || (9 ≤ c.toNat && c.toNat ≤ 13)

/-- Decimal digit characters. -/
def isDigit (c : Char) : Bool :=
  48 ≤ c.toNat && c.toNat ≤ 57

/-- The newline character test used by `getline` and `ignore`. -/
def isNewline (c : Char) : Bool :=
  c.toNat == 10

/-- Value of a run of decimal digits. -/
def digitsVal (cs : List Char) : Nat :=
  cs.foldl (fun a c => 10 * a + (c.toNat - 48)) 0

/-- The character of a decimal digit. -/
def digitChar (d : Nat) : Char :=
  Char.ofNat (48 + d)

/-- Decimal digits of `n`, most significant first, pushed in front of `acc`. -/
def natDigits : Nat → Nat → List Char → List Char
  | 0, _, acc => acc
  | fuel + 1, n, acc =>
    if n < 10 then digitChar n :: acc
    else natDigits fuel (n / 10) (digitChar (n % 10) :: acc)

/-- Text of a natural number as `operator<<` writes it. -/
def showNat (n : Nat) : List Char :=
  natDigits (n + 1) n []

/-- Text of an `int` as `operator<<` writes it. -/
def showInt (i : Int) : List Char :=
  if i < 0 then '-' :: showNat i.natAbs else showNat i.toNat

/-- Smallest value of `int`. -/
def INT_MIN : Int := -2147483648

/-- Largest value of `int`. -/
def INT_MAX : Int := 2147483647

/-- The exact value `(-1)^neg * mant * 10^exp` of a floating numeral as it is written. -/
structure Decimal where
  neg : Bool
  mant : Nat
  exp : Int
deriving DecidableEq, Repr

/-- A finite `double`: the value `(-1)^neg * units * 2^(-1074)`. -/
structure Double where
  neg : Bool
  units : Nat
deriving DecidableEq, Repr

/-- The value `0.0`. -/
def Double.zero : Double := ⟨false, 0⟩

/-- The largest `double`, `(2^53 - 1) * 2^971`, in units of `2^(-1074)`. -/
def DBL_MAX_UNITS : Nat := (2 ^ 53 - 1) * 2 ^ 2045

/-- A `double` is finite when it does not exceed the largest `double`. -/
def Double.finite (d : Double) : Bool :=
  decide (d.units ≤ DBL_MAX_UNITS)

/-- The comparison `x < 0` on a `double`; it is false for `-0.0`. -/
def Double.isNeg (d : Double) : Bool :=
  d.neg && d.units != 0

/-- The rational number a `double` stands for. -/
def Double.value (d : Double) : ℚ :=
  (if d.neg then -1 else 1) * (d.units : ℚ) / (2 : ℚ) ^ 1074

/-- Numerator of the absolute value of a decimal. -/
def Decimal.num (d : Decimal) : Nat :=
  if 0 ≤ d.exp then d.mant * 10 ^ d.exp.toNat else d.mant

/-- Denominator of the absolute value of a decimal. -/
def Decimal.den (d : Decimal) : Nat :=
  if 0 ≤ d.exp then 1 else 10 ^ (-d.exp).toNat

/-- The conversion to `double` overflows when the absolute value is at least
`2^1024 - 2^970`, half a step above the largest `double`. -/
def Decimal.overflows (d : Decimal) : Bool :=
  decide ((2 ^ 1024 - 2 ^ 970) * d.den ≤ d.num)

/-- Number of binary digits of `n`. -/
def bitLenAux : Nat → Nat → Nat
  | 0, _ => 0
  | fuel + 1, n => if n = 0 then 0 else bitLenAux fuel (n / 2) + 1

/-- Number of binary digits of `n`. -/
def bitLen (n : Nat) : Nat :=
  bitLenAux n n

/-- The quotient `n / d` rounded to the nearest integer, ties to even. -/
def roundDiv (n d : Nat) : Nat :=
  let q := n / d
  let r := n % d
  if d < 2 * r ∨ (2 * r = d ∧ q % 2 = 1) then q + 1 else q

/-- The nearest `double` of a decimal that does not overflow (`strtod`): the
value in units of `2^(-1074)` is rounded to a multiple of `2^s`, where `s` is
the least shift that leaves at most 53 binary digits. -/
def Decimal.toDouble (d : Decimal) : Double :=
  let a := d.num * 2 ^ 1074
  let b := d.den
  let s1 := bitLen a - (bitLen b + 53)
  let s := if a < b * 2 ^ (s1 + 53) then s1 else s1 + 1
  ⟨d.neg, roundDiv a (b * 2 ^ s) * 2 ^ s⟩

/-! ## Scanning numbers (`num_get`) -/

/-- Optional leading sign: whether it is a minus, and the rest. -/
def takeSign : List Char → Bool × List Char
  | c :: t => if c = '-' then (true, t) else if c = '+' then (false, t) else (false, c :: t)
  | [] => (false, [])

/-- Integer field: optional sign and digits.  `none` when there is no digit.
The second component is what is left in the stream. -/
def scanInt (cs : List Char) : Option Int × List Char :=
  let (neg, t) := takeSign cs
  let ds := t.takeWhile isDigit
  let rest := t.dropWhile isDigit
  if ds.isEmpty then (none, rest)
  else (some (if neg then -(digitsVal ds : Int) else (digitsVal ds : Int)), rest)

/-- Optional fraction: a decimal point followed by digits. -/
def takeFrac : List Char → List Char × List Char
  | c :: t => if c = '.' then (t.takeWhile isDigit, t.dropWhile isDigit) else ([], c :: t)
  | [] => ([], [])

/-- Optional exponent after a mantissa: `e` or `E`, optional sign, digits.
Returns whether the exponent mark was read, the exponent sign, its digits and the rest. -/
def takeExp : List Char → Bool × Bool × List Char × List Char
  | c :: t =>
    if c = 'e' ∨ c = 'E' then
      let (neg, u) := takeSign t
      (true, neg, u.takeWhile isDigit, u.dropWhile isDigit)
    else (false, false, [], c :: t)
  | [] => (false, false, [], [])

/-- Floating field: optional sign, digits, optional fraction, and after at
least one mantissa digit an optional exponent.  `none` when the characters
read do not form a number (no mantissa digit, or an exponent mark without
exponent digits). -/
def scanFloat (cs : List Char) : Option Decimal × List Char :=
  let (neg, t) := takeSign cs
  let ip := t.takeWhile isDigit
  let t1 := t.dropWhile isDigit
  let (fp, t2) := takeFrac t1
  if ip.isEmpty && fp.isEmpty then (none, t2)
  else
    let (hasE, eneg, ed, t3) := takeExp t2
    if hasE && ed.isEmpty then (none, t3)
    else
      let e : Int := if eneg then -(digitsVal ed : Int) else (digitsVal ed : Int)
      (some ⟨neg, digitsVal (ip ++ fp), e - (fp.length : Int)⟩, t3)

/-! ## Input streams -/

/-- An input stream: unread characters and the two state bits the program can observe. -/
structure IStream where
  buf : List Char
  failbit : Bool
  eofbit : Bool
deriving DecidableEq, Repr

/-- The member `good()`. -/
def IStream.good (s : IStream) : Bool :=
  !s.failbit && !s.eofbit

/-- The member `fail()`. -/
def IStream.fail (s : IStream) : Bool :=
  s.failbit

/-- The member `clear()`. -/
def IStream.clear (s : IStream) : IStream :=
  { s with failbit := false, eofbit := false }

/-- A fresh stream over the given characters. -/
def IStream.ofChars (cs : List Char) : IStream :=
  ⟨cs, false, false⟩

/-- The sentry of a formatted extraction: fails on an unusable stream,
otherwise skips white space and fails when that reaches the end. -/
def IStream.sentry (s : IStream) : IStream × Bool :=
  if s.good then
    let b := s.buf.dropWhile isSpace
    if b.isEmpty then (⟨[], true, true⟩, false) else (⟨b, false, false⟩, true)
  else ({ s with failbit := true }, false)

/-- The extraction `s >> x` for `int x`; `old` is the previous value of `x`. -/
def IStream.extractInt (s : IStream) (old : Int) : IStream × Int :=
  let (s1, ok) := s.sentry
  if ok then
    let (r, rest) := scanInt s1.buf
    match r with
    | none => (⟨rest, true, rest.isEmpty⟩, 0)
    | some v =>
      if v < INT_MIN then (⟨rest, true, rest.isEmpty⟩, INT_MIN)
      else if INT_MAX < v then (⟨rest, true, rest.isEmpty⟩, INT_MAX)
      else (⟨rest, false, rest.isEmpty⟩, v)
  else (s1, old)

/-- The extraction `s >> x` for `double x`; `old` is the previous value of `x`. -/
def IStream.extractDouble (s : IStream) (old : Double) : IStream × Double :=
  let (s1, ok) := s.sentry
  if ok then
    let (r, rest) := scanFloat s1.buf
    match r with
    | none => (⟨rest, true, rest.isEmpty⟩, Double.zero)
    | some v =>
      if v.overflows then (⟨rest, true, rest.isEmpty⟩, ⟨v.neg, DBL_MAX_UNITS⟩)
      else (⟨rest, false, rest.isEmpty⟩, v.toDouble)
  else (s1, old)

/-- The call `getline(s, str)`; `old` is the previous content of `str`. -/
def IStream.getline (s : IStream) (old : List Char) : IStream × List Char :=
  if s.good then
    match s.buf with
    | [] => (⟨[], true, true⟩, [])
    | c :: t =>
      let line := (c :: t).takeWhile (fun x => !isNewline x)
      match (c :: t).dropWhile (fun x => !isNewline x) with
      | [] => (⟨[], false, true⟩, line)
      | _ :: rest => (⟨rest, false, false⟩, line)
  else ({ s with failbit := true }, old)

/-- The call `s.ignore()`: drops one character. -/
def IStream.ignore1 (s : IStream) : IStream :=
  if s.good then
    match s.buf with
    | [] => { s with eofbit := true }
    | _ :: t => { s with buf := t }
  else { s with failbit := true }

/-- Drops at most `n` characters, stopping after a newline; the flag tells
whether the end of input was met. -/
def dropLine : Nat → List Char → List Char × Bool
  | 0, cs => (cs, false)
  | _ + 1, [] => ([], true)
  | n + 1, c :: t => if isNewline c then (t, false) else dropLine n t

/-- The call `s.ignore(1000, '\n')`. -/
def IStream.ignoreLine (s : IStream) : IStream :=
  if s.good then
    let (b, eof) := dropLine 1000 s.buf
    { s with buf := b, eofbit := eof }
  else { s with failbit := true }

/-! ## Output formatting -/

/-- Removes trailing zeros after the first digit. -/
def stripZeros : List Char → List Char
  | [] => []
  | c :: t => c :: t.rdropWhile (fun x => x == '0')

/-- Pads an exponent to at least two digits. -/
def pad2 (ds : List Char) : List Char :=
  if ds.length < 2 then '0' :: ds else ds

/-- A fraction part with its decimal point, nothing when there are no digits. -/
def fracText (fp : List Char) : List Char :=
  if fp.isEmpty then [] else '.' :: fp

/-- General notation for the significant digits `sig` (first digit nonzero, no
trailing zeros) of a number whose decimal exponent is `x`: fixed notation
when `-4 ≤ x < 6`, scientific notation with a two digit exponent otherwise. -/
def generalBody (sig : List Char) (x : Int) : List Char :=
  if -4 ≤ x ∧ x < 6 then
    if 0 ≤ x then
      let n := x.toNat + 1
      let padded := sig ++ List.replicate (n - sig.length) '0'
      padded.take n ++ fracText (padded.drop n)
    else
      '0' :: '.' :: (List.replicate ((-x).toNat - 1) '0' ++ sig)
  else
    sig.take 1 ++ (fracText (sig.drop 1) ++
      'e' :: (if x < 0 then '-' else '+') :: pad2 (showNat x.natAbs))

/-- Six significant decimal digits of the positive fraction `n / d`: the
decimal exponent `x0` of its leading digit and `n / d / 10^(x0 - 5)` rounded
to an integer, which has six digits or is `10^6`. -/
def sixDigits (n d : Nat) : Nat × Int :=
  if d ≤ n then
    let x0 := (showNat (n / d)).length - 1
    if x0 ≤ 5 then (roundDiv (n * 10 ^ (5 - x0)) d, (x0 : Int))
    else (roundDiv n (d * 10 ^ (x0 - 5)), (x0 : Int))
  else
    let k := (showNat ((d - 1) / n)).length
    (roundDiv (n * 10 ^ (5 + k)) d, -(k : Int))

/-- Text of a `double` written with the default stream settings, as in
`file << item.wholesaleCost`: general notation with six significant digits,
trailing zeros removed. -/
def showDouble (d : Double) : List Char :=
  let sign := if d.neg then ['-'] else []
  if d.units = 0 then sign ++ ['0']
  else
    let ds := showNat (sixDigits d.units (2 ^ 1074)).1
    let x : Int := (ds.length : Int) - 1 + (sixDigits d.units (2 ^ 1074)).2 - 5
    sign ++ generalBody (stripZeros ds) x

/-- Text of a `double` written after `fixed << showpoint << setprecision(2)`. -/
def showFixed2 (d : Double) : List Char :=
  let n : Nat := roundDiv (d.units * 100) (2 ^ 1074)
  (if d.neg then ['-'] else []) ++ (showNat (n / 100) ++ '.' :: pad2 (showNat (n % 100)))

/-! ## The record and the store file -/

/-- The struct `InventoryItem`. -/
structure InventoryItem where
  itemDescription : List Char
  quantityOnHand : Int
  wholesaleCost : Double
  retailCost : Double
deriving DecidableEq, Repr

/-- The `fstream` on `inventory.txt`, opened with `ios::in | ios::out | ios::app`:
the bytes of the file and the reading side of the stream. -/
structure FStream where
  content : List Char
  rd : IStream
deriving DecidableEq, Repr

/-- The file stream right after opening a file with the given bytes. -/
def FStream.open (content : List Char) : FStream :=
  ⟨content, IStream.ofChars content⟩

/-- The four lines `addRecord` writes for an item (source lines 165 to 168). -/
def writeRecord (item : InventoryItem) : List Char :=
  item.itemDescription ++ '\n' :: (showInt item.quantityOnHand ++ '\n' ::
    (showDouble item.wholesaleCost ++ '\n' :: (showDouble item.retailCost ++ ['\n'])))

/-- The calls `file.clear()` and `file << ...` of `addRecord`: in append mode
the text goes to the end of the file, where the stream then stands. -/
def FStream.append (f : FStream) (text : List Char) : FStream :=
  ⟨f.content ++ text, ⟨[], false, false⟩⟩

/-- The calls `file.clear()` and `file.seekg(0, ios::beg)` of `displayRecord`. -/
def FStream.rewind (f : FStream) : FStream :=
  ⟨f.content, ⟨f.content, false, false⟩⟩

/-! ## `addRecord` -/

/-- The shape shared by the three `do ... while (value < 0)` loops of `addRecord`:
prompt, extract, on `cin.fail()` or a negative value clear the state, drop
the rest of the line and print the error, repeat while the value is negative.
`none` means the fuel ran out. -/
def retryLoop {α : Type} (extract : IStream → α → IStream × α) (isNeg : α → Bool)
    (prompt err : List Char) : Nat → IStream → α → List Char → Option (IStream × α × List Char)
  | 0, _, _, _ => none
  | fuel + 1, cin, v, out =>
    let out1 := out ++ prompt
    let (cin1, v1) := extract cin v
    let (cin2, out2) :=
      if cin1.fail || isNeg v1 then (cin1.clear.ignoreLine, out1 ++ err) else (cin1, out1)
    if isNeg v1 then retryLoop extract isNeg prompt err fuel cin2 v1 out2
    else some (cin2, v1, out2)

/-- Prompt of the quantity loop. -/
def quantityPrompt : List Char := "Enter quantity on hand (Int): ".toList

/-- Error message of the quantity loop. -/
def quantityError : List Char := "Error: Quantity must be a non-negative integer.\n".toList

/-- Prompt of the wholesale cost loop. -/
def wholesalePrompt : List Char := "Enter wholesale cost (Double): ".toList

/-- Error message of the wholesale cost loop. -/
def wholesaleError : List Char := "Error: Wholesale cost must be a non-negative value.\n".toList

/-- Prompt of the retail cost loop. -/
def retailPrompt : List Char := "Enter retail cost (Double): ".toList

/-- Error message of the retail cost loop. -/
def retailError : List Char := "Error: Retail cost must be a non-negative value.\n".toList

/-- The loop of source lines 126 to 135. -/
def quantityLoop : Nat → IStream → Int → List Char → Option (IStream × Int × List Char) :=
  retryLoop IStream.extractInt (fun q => decide (q < 0)) quantityPrompt quantityError

/-- The loop of source lines 138 to 147. -/
def wholesaleLoop : Nat → IStream → Double → List Char → Option (IStream × Double × List Char) :=
  retryLoop IStream.extractDouble Double.isNeg wholesalePrompt wholesaleError

/-- The loop of source lines 150 to 159. -/
def retailLoop : Nat → IStream → Double → List Char → Option (IStream × Double × List Char) :=
  retryLoop IStream.extractDouble Double.isNeg retailPrompt retailError

/-- What a call leaves behind: the console input, the file stream, and the text written to `cout`. -/
structure Outcome where
  cin : IStream
  file : FStream
  out : List Char
deriving DecidableEq, Repr

/-- The function `addRecord`.  `junk` holds the indeterminate initial values of
the numeric members of the local `item`; its description starts empty. -/
def addRecord (fuel : Nat) (cin : IStream) (file : FStream) (junk : InventoryItem) :
    Option Outcome :=
  let out0 := "\nEnter item description (Text): ".toList
  let (cin1, desc) := cin.ignore1.getline []
  match quantityLoop fuel cin1 junk.quantityOnHand out0 with
  | none => none
  | some (cin2, q, out1) =>
    match wholesaleLoop fuel cin2 junk.wholesaleCost out1 with
    | none => none
    | some (cin3, w, out2) =>
      match retailLoop fuel cin3 junk.retailCost out2 with
      | none => none
      | some (cin4, r, out3) =>
        some ⟨cin4, file.append (writeRecord ⟨desc, q, w, r⟩),
          out3 ++ "\nRecord added successfully.\n".toList⟩

/-! ## `displayRecord` -/

/-- The prompt of `displayRecord`. -/
def recordPrompt : List Char := "\nEnter record number to display: ".toList

/-- The message for an unparseable record number. -/
def invalidNumberMsg : List Char :=
  "Error: Invalid input. Please enter a valid record number.\n".toList

/-- The message printed after the scan loop. -/
def notFoundMsg : List Char := "\nError: Record not found.\n".toList

/-- The text printed for the selected record (source lines 210 to 215). -/
def renderRecord (recordNumber : Int) (item : InventoryItem) : List Char :=
  "\nRecord #".toList ++ showInt recordNumber ++ ":\n".toList
    ++ "Item Description: ".toList ++ item.itemDescription ++ ['\n']
    ++ "Quantity on hand: ".toList ++ showInt item.quantityOnHand ++ ['\n']
    ++ "Wholesale cost  : $".toList ++ showFixed2 item.wholesaleCost ++ ['\n']
    ++ "Retail cost     : $".toList ++ showFixed2 item.retailCost ++ ['\n']

/-- The four reads in the condition of the scan loop, joined by `&&`
(source lines 202 to 205); the flag is the value of the conjunction. -/
def readRecord (f : IStream) (item : InventoryItem) : IStream × InventoryItem × Bool :=
  let (f1, d) := f.getline item.itemDescription
  let item1 := { item with itemDescription := d }
  if f1.fail then (f1, item1, false)
  else
    let (f2, q) := f1.extractInt item1.quantityOnHand
    let item2 := { item1 with quantityOnHand := q }
    if f2.fail then (f2, item2, false)
    else
      let (f3, w) := f2.extractDouble item2.wholesaleCost
      let item3 := { item2 with wholesaleCost := w }
      if f3.fail then (f3, item3, false)
      else
        let (f4, r) := f3.extractDouble item3.retailCost
        let item4 := { item3 with retailCost := r }
        (f4, item4, !f4.fail)

/-- The `while` loop of `displayRecord` (source lines 201 to 219) followed by
the final message.  Returns the reading side of the file and the text
printed; `none` means the fuel ran out. -/
def scanLoop (recordNumber : Int) :
    Nat → Int → IStream → InventoryItem → Option (IStream × List Char)
  | 0, _, _, _ => none
  | fuel + 1, currentRecord, f, item =>
    if currentRecord ≤ recordNumber then
      let (f1, item1, ok) := readRecord f item
      if ok then
        let f2 := f1.ignore1
        if currentRecord = recordNumber then some (f2, renderRecord recordNumber item1)
        else scanLoop recordNumber fuel (currentRecord + 1) f2 item1
      else some (f1, notFoundMsg)
    else some (f, notFoundMsg)

/-- The function `displayRecord`.  `junkNumber` and `junk` hold the indeterminate
initial values of the locals `recordNumber` and `item`. -/
def displayRecord (fuel : Nat) (cin : IStream) (file : FStream) (junkNumber : Int)
    (junk : InventoryItem) : Option Outcome :=
  let (cin1, recordNumber) := cin.extractInt junkNumber
  if cin1.fail then
    some ⟨cin1.clear.ignoreLine, file, recordPrompt ++ invalidNumberMsg⟩
  else
    match scanLoop recordNumber fuel 1 file.rewind.rd { junk with itemDescription := [] } with
    | none => none
    | some (f, text) => some ⟨cin1, ⟨file.content, f⟩, recordPrompt ++ text⟩

/-! ## Well-formed store files -/

/-- The value of a line that is exactly one `int` numeral: the integer field
takes the whole line and the value fits an `int`. -/
def intTokenValue (t : List Char) : Option Int :=
  match scanInt t with
  | (some v, []) => if INT_MIN ≤ v ∧ v ≤ INT_MAX then some v else none
  | _ => none

/-- The value of a line that is exactly one floating numeral: the floating
field takes the whole line and the value does not overflow. -/
def floatTokenValue (t : List Char) : Option Double :=
  match scanFloat t with
  | (some v, []) => if v.overflows then none else some v.toDouble
  | _ => none

/-- The text of one stored record: the content of its four lines. -/
structure RecordText where
  description : List Char
  quantity : List Char
  wholesale : List Char
  retail : List Char
deriving DecidableEq, Repr

/-- A record is well formed when its description has no newline and each of
the other three lines is exactly one numeral of the right kind. -/
def RecordText.wellFormed (r : RecordText) : Bool :=
  r.description.all (fun c => !isNewline c) && (intTokenValue r.quantity).isSome
    && (floatTokenValue r.wholesale).isSome && (floatTokenValue r.retail).isSome

/-- The bytes of a stored record: four newline-terminated lines. -/
def RecordText.text (r : RecordText) : List Char :=
  r.description ++ '\n' :: (r.quantity ++ '\n' :: (r.wholesale ++ '\n' :: (r.retail ++ ['\n'])))

/-- The item a well-formed stored record stands for. -/
def RecordText.item (r : RecordText) : InventoryItem :=
  ⟨r.description, (intTokenValue r.quantity).getD 0,
    (floatTokenValue r.wholesale).getD Double.zero, (floatTokenValue r.retail).getD Double.zero⟩

/-- The four lines `addRecord` writes for an item, line by line. -/
def RecordText.ofItem (item : InventoryItem) : RecordText :=
  ⟨item.itemDescription, showInt item.quantityOnHand, showDouble item.wholesaleCost,
    showDouble item.retailCost⟩

/-- The bytes of a store file holding the given records in order. -/
def storeText : List RecordText → List Char
  | [] => []
  | r :: rs => r.text ++ storeText rs

/-- The item held by the scan loop after it has read the given records. -/
def lastItem (item : InventoryItem) : List RecordText → InventoryItem
  | [] => item
  | r :: rs => lastItem r.item rs

/-- The number of records the scan of `displayRecord` can read from the
start of a stream, counting at most `fuel` of them. -/
def countRecords : Nat → IStream → InventoryItem → Nat
  | 0, _, _ => 0
  | fuel + 1, f, item =>
    let (f1, item1, ok) := readRecord f item
    if ok then countRecords fuel f1.ignore1 item1 + 1 else 0

/-- A sequence of `addRecord` calls on the same file stream, each with its own
fuel, console input and indeterminate initial values. -/
def addRecords : List (Nat × IStream × InventoryItem) → FStream → Option FStream
  | [], f => some f
  | (fuel, cin, junk) :: calls, f =>
    match addRecord fuel cin f junk with
    | none => none
    | some o => addRecords calls o.file

/-- The bytes written for a list of items. -/
def storeOf : List InventoryItem → List Char
  | [] => []
  | item :: items => writeRecord item ++ storeOf items

/-- The cost that is read back from the file for a cost `addRecord` wrote. -/
def storedCost (d : Double) : Double :=
  (floatTokenValue (showDouble d)).getD Double.zero

/-- A sample stored record. -/
def widgetRecord : RecordText :=
  ⟨"Widget".toList, "10".toList, "2.5".toList, "5".toList⟩

/-- A second sample stored record. -/
def gadgetRecord : RecordText :=
  ⟨"Gadget".toList, "7".toList, "1.25".toList, "3.75".toList⟩

/-- A sample of indeterminate initial values: every numeric member negative. -/
def junkItem : InventoryItem :=
  ⟨[], -1, ⟨true, 2 ^ 1074⟩, ⟨true, 2 ^ 1074⟩⟩

/-! ## Numerals: printing and scanning agree -/

theorem isDigit_digitChar {d : Nat} (h : d < 10) : isDigit (digitChar d) = true := by
  interval_cases d <;> decide

theorem digitChar_toNat {d : Nat} (h : d < 10) : (digitChar d).toNat - 48 = d := by
  interval_cases d <;> decide

theorem natDigits_ne_nil (fuel n : Nat) (acc : List Char) (h : acc ≠ [] ∨ 0 < fuel) :
    natDigits fuel n acc ≠ [] := by
  induction fuel generalizing n acc with
  | zero =>
    rcases h with h | h
    · simpa [natDigits] using h
    · omega
  | succ k ih =>
    unfold natDigits
    split
    · simp
    · exact ih _ _ (Or.inl (by simp))

theorem natDigits_all (fuel n : Nat) (acc : List Char) (h : ∀ c ∈ acc, isDigit c = true) :
    ∀ c ∈ natDigits fuel n acc, isDigit c = true := by
  induction fuel generalizing n acc with
  | zero => simpa [natDigits] using h
  | succ k ih =>
    unfold natDigits
    split
    · rename_i hn
      intro c hc
      rcases List.mem_cons.1 hc with rfl | hc
      · exact isDigit_digitChar hn
      · exact h c hc
    · apply ih
      intro c hc
      rcases List.mem_cons.1 hc with rfl | hc
      · exact isDigit_digitChar (Nat.mod_lt _ (by norm_num))
      · exact h c hc

theorem foldl_digits (a : Nat) (cs : List Char) :
    cs.foldl (fun a c => 10 * a + (c.toNat - 48)) a = a * 10 ^ cs.length + digitsVal cs := by
  induction cs generalizing a with
  | nil => simp [digitsVal]
  | cons c t ih =>
    simp only [List.foldl_cons, List.length_cons, digitsVal]
    rw [ih, ih (10 * 0 + (c.toNat - 48))]
    ring

theorem digitsVal_cons (c : Char) (t : List Char) :
    digitsVal (c :: t) = (c.toNat - 48) * 10 ^ t.length + digitsVal t := by
  have h := foldl_digits (10 * 0 + (c.toNat - 48)) t
  simp only [digitsVal, List.foldl_cons] at h ⊢
  rw [h]
  simp [digitsVal]

theorem digitsVal_natDigits (fuel n : Nat) (acc : List Char) (h : n < fuel) :
    digitsVal (natDigits fuel n acc) = n * 10 ^ acc.length + digitsVal acc := by
  induction fuel generalizing n acc with
  | zero => omega
  | succ k ih =>
    unfold natDigits
    split
    · rename_i hn
      rw [digitsVal_cons, digitChar_toNat hn]
    · rename_i hn
      have hk : n / 10 < k := by omega
      rw [ih _ _ hk, digitsVal_cons, digitChar_toNat (Nat.mod_lt _ (by norm_num))]
      simp only [List.length_cons, pow_succ]
      have hd : n * 10 ^ acc.length = (10 * (n / 10) + n % 10) * 10 ^ acc.length := by
        rw [Nat.div_add_mod]
      rw [hd]
      ring

theorem showNat_ne_nil (n : Nat) : showNat n ≠ [] :=
  natDigits_ne_nil _ _ _ (Or.inr (Nat.succ_pos n))

theorem showNat_all (n : Nat) : ∀ c ∈ showNat n, isDigit c = true :=
  natDigits_all _ _ _ (by simp)

theorem digitsVal_showNat (n : Nat) : digitsVal (showNat n) = n := by
  have h := digitsVal_natDigits (n + 1) n [] (Nat.lt_succ_self n)
  simpa [showNat, digitsVal] using h

/-! ## Scanning stops at the end of a line -/

theorem takeWhile_digit_stop (xs r : List Char) :
    (xs ++ '\n' :: r).takeWhile isDigit = xs.takeWhile isDigit := by
  induction xs with
  | nil => rfl
  | cons c t ih =>
    simp only [List.cons_append, List.takeWhile_cons]
    split <;> simp [ih]

theorem dropWhile_digit_stop (xs r : List Char) :
    (xs ++ '\n' :: r).dropWhile isDigit = xs.dropWhile isDigit ++ '\n' :: r := by
  induction xs with
  | nil => rfl
  | cons c t ih =>
    simp only [List.cons_append, List.dropWhile_cons]
    split <;> simp [ih]

theorem takeSign_stop (t r : List Char) :
    takeSign (t ++ '\n' :: r) = ((takeSign t).1, (takeSign t).2 ++ '\n' :: r) := by
  cases t with
  | nil => rfl
  | cons c u =>
    simp only [List.cons_append, takeSign]
    split
    · rfl
    · split <;> rfl

theorem takeFrac_stop (t r : List Char) :
    takeFrac (t ++ '\n' :: r) = ((takeFrac t).1, (takeFrac t).2 ++ '\n' :: r) := by
  cases t with
  | nil => rfl
  | cons c u =>
    simp only [List.cons_append, takeFrac]
    split
    · simp [takeWhile_digit_stop, dropWhile_digit_stop]
    · rfl

theorem takeExp_stop (t r : List Char) :
    takeExp (t ++ '\n' :: r) =
      ((takeExp t).1, (takeExp t).2.1, (takeExp t).2.2.1, (takeExp t).2.2.2 ++ '\n' :: r) := by
  cases t with
  | nil => rfl
  | cons c u =>
    simp only [List.cons_append, takeExp]
    split
    · simp [takeSign_stop, takeWhile_digit_stop, dropWhile_digit_stop]
    · rfl

theorem scanInt_stop (t r : List Char) :
    scanInt (t ++ '\n' :: r) = ((scanInt t).1, (scanInt t).2 ++ '\n' :: r) := by
  simp only [scanInt, takeSign_stop, takeWhile_digit_stop, dropWhile_digit_stop]
  split <;> rfl

theorem scanFloat_stop (t r : List Char) :
    scanFloat (t ++ '\n' :: r) = ((scanFloat t).1, (scanFloat t).2 ++ '\n' :: r) := by
  simp only [scanFloat, takeSign_stop, takeWhile_digit_stop, dropWhile_digit_stop,
    takeFrac_stop, takeExp_stop]
  split
  · rfl
  · split <;> rfl

/-! ## Reading one stored record -/

theorem space_not_digit {c : Char} (h : isSpace c = true) : isDigit c = false := by
  simp only [isSpace, isDigit, Bool.or_eq_true, Bool.and_eq_true, beq_iff_eq,
    decide_eq_true_eq, Bool.and_eq_false_imp] at h ⊢
  omega

theorem space_ne_minus {c : Char} (h : isSpace c = true) : c ≠ '-' := by
  rintro rfl
  revert h
  decide

theorem space_ne_plus {c : Char} (h : isSpace c = true) : c ≠ '+' := by
  rintro rfl
  revert h
  decide

theorem space_ne_dot {c : Char} (h : isSpace c = true) : c ≠ '.' := by
  rintro rfl
  revert h
  decide

theorem scanInt_head {t : List Char} {v : Int} (h : (scanInt t).1 = some v) (x : List Char) :
    (t ++ x).dropWhile isSpace = t ++ x := by
  cases t with
  | nil => simp [scanInt, takeSign] at h
  | cons c u =>
    cases hs : isSpace c with
    | false => simp [List.dropWhile_cons, hs]
    | true =>
      simp [scanInt, takeSign, space_ne_minus hs, space_ne_plus hs, List.takeWhile_cons,
        space_not_digit hs] at h

theorem scanFloat_head {t : List Char} {v : Decimal} (h : (scanFloat t).1 = some v)
    (x : List Char) : (t ++ x).dropWhile isSpace = t ++ x := by
  cases t with
  | nil => simp [scanFloat, takeSign, takeFrac] at h
  | cons c u =>
    cases hs : isSpace c with
    | false => simp [List.dropWhile_cons, hs]
    | true =>
      simp [scanFloat, takeSign, takeFrac, space_ne_minus hs, space_ne_plus hs,
        space_ne_dot hs, List.takeWhile_cons, List.dropWhile_cons, space_not_digit hs] at h

theorem intTokenValue_some {t : List Char} {v : Int} (h : intTokenValue t = some v) :
    scanInt t = (some v, []) ∧ INT_MIN ≤ v ∧ v ≤ INT_MAX := by
  unfold intTokenValue at h
  split at h
  · rename_i w hw
    split at h
    · rename_i hr
      cases h
      exact ⟨hw, hr⟩
    · cases h
  · cases h

theorem floatTokenValue_some {t : List Char} {v : Double} (h : floatTokenValue t = some v) :
    ∃ dec : Decimal, scanFloat t = (some dec, []) ∧ dec.overflows = false
      ∧ v = dec.toDouble := by
  unfold floatTokenValue at h
  split at h
  · rename_i w hw
    split at h
    · cases h
    · rename_i ho
      cases h
      exact ⟨w, hw, by simpa using ho, rfl⟩
  · cases h

theorem extractInt_token {t : List Char} {v : Int} (h : intTokenValue t = some v)
    (r : List Char) (old : Int) :
    (IStream.mk (t ++ '\n' :: r) false false).extractInt old = (⟨'\n' :: r, false, false⟩, v) := by
  obtain ⟨hs, h1, h2⟩ := intTokenValue_some h
  have hh := scanInt_head (congrArg Prod.fst hs) ('\n' :: r)
  have e := scanInt_stop t r
  rw [hs] at e
  simp only [IStream.extractInt, IStream.sentry, IStream.good, hh]
  simp [e, not_lt.2 h1, not_lt.2 h2]

theorem extractDouble_token {t : List Char} {v : Double} (h : floatTokenValue t = some v)
    (r : List Char) (old : Double) :
    (IStream.mk ('\n' :: (t ++ '\n' :: r)) false false).extractDouble old
      = (⟨'\n' :: r, false, false⟩, v) := by
  obtain ⟨dec, hs, ho, rfl⟩ := floatTokenValue_some h
  have hh := scanFloat_head (congrArg Prod.fst hs) ('\n' :: r)
  have hn : isSpace '\n' = true := by decide
  have e := scanFloat_stop t r
  rw [hs] at e
  simp only [IStream.extractDouble, IStream.sentry, IStream.good, List.dropWhile_cons, hn, hh]
  simp [e, ho]

theorem getline_line {d : List Char} (hd : d.all (fun c => !isNewline c) = true)
    (r : List Char) (old : List Char) :
    (IStream.mk (d ++ '\n' :: r) false false).getline old = (⟨r, false, false⟩, d) := by
  have hn : isNewline '\n' = true := by decide
  have h1 : (d ++ '\n' :: r).takeWhile (fun x => !isNewline x) = d := by
    induction d with
    | nil => simp [List.takeWhile_cons, hn]
    | cons c t ih =>
      simp only [List.all_cons, Bool.and_eq_true] at hd
      simp [List.takeWhile_cons, hd.1, ih hd.2]
  have h2 : (d ++ '\n' :: r).dropWhile (fun x => !isNewline x) = '\n' :: r := by
    clear h1
    induction d with
    | nil => simp [List.dropWhile_cons, hn]
    | cons c t ih =>
      simp only [List.all_cons, Bool.and_eq_true] at hd
      simp [List.dropWhile_cons, hd.1, ih hd.2]
  unfold IStream.getline
  simp only [IStream.good, Bool.not_false, Bool.and_self, if_true]
  cases hb : d ++ '\n' :: r with
  | nil => simp at hb
  | cons c t =>
    rw [hb] at h1 h2
    simp only [h1, h2]

theorem wellFormed_parts {r : RecordText} (h : r.wellFormed = true) :
    r.description.all (fun c => !isNewline c) = true
      ∧ intTokenValue r.quantity = some r.item.quantityOnHand
      ∧ floatTokenValue r.wholesale = some r.item.wholesaleCost
      ∧ floatTokenValue r.retail = some r.item.retailCost := by
  simp only [RecordText.wellFormed, Bool.and_eq_true, Option.isSome_iff_exists] at h
  obtain ⟨⟨⟨h1, q, hq⟩, w, hw⟩, c, hc⟩ := h
  refine ⟨h1, ?_, ?_, ?_⟩ <;> simp [RecordText.item, hq, hw, hc]

theorem readRecord_text {r : RecordText} (h : r.wellFormed = true) (tail : List Char)
    (item : InventoryItem) :
    readRecord ⟨r.text ++ tail, false, false⟩ item = (⟨'\n' :: tail, false, false⟩, r.item, true) := by
  obtain ⟨h1, h2, h3, h4⟩ := wellFormed_parts h
  have e : r.text ++ tail = r.description ++ '\n' :: (r.quantity ++ '\n' ::
      (r.wholesale ++ '\n' :: (r.retail ++ '\n' :: tail))) := by
    simp [RecordText.text]
  rw [e]
  simp only [readRecord, getline_line h1, IStream.fail, extractInt_token h2,
    extractDouble_token h3, extractDouble_token h4]
  simp [RecordText.item]

/-! ## The scan loop of `displayRecord` -/

theorem scanLoop_skip (n : Int) (rs : List RecordText) (hwf : ∀ r ∈ rs, r.wellFormed = true)
    (fuel : Nat) (cur : Int) (tail : List Char) (item : InventoryItem)
    (h : cur + rs.length ≤ n) :
    scanLoop n (fuel + rs.length) cur ⟨storeText rs ++ tail, false, false⟩ item
      = scanLoop n fuel (cur + rs.length) ⟨tail, false, false⟩ (lastItem item rs) := by
  induction rs generalizing cur item with
  | nil => simp [storeText, lastItem]
  | cons r rs ih =>
    have hr : r.wellFormed = true := hwf r (List.mem_cons_self _ _)
    have hrs : ∀ r ∈ rs, r.wellFormed = true := fun x hx => hwf x (List.mem_cons_of_mem _ hx)
    simp only [List.length_cons, Nat.cast_add, Nat.cast_one] at h ⊢
    have h1 : cur ≤ n := by omega
    have h2 : cur ≠ n := by omega
    have e : storeText (r :: rs) ++ tail = r.text ++ (storeText rs ++ tail) := by
      simp [storeText]
    rw [e, ← Nat.add_assoc]
    simp only [scanLoop, h1, if_true, readRecord_text hr, h2, if_false, IStream.ignore1,
      IStream.good, Bool.not_false, Bool.and_self]
    rw [ih hrs (cur + 1) r.item (by omega)]
    simp only [lastItem]
    congr 1
    omega

theorem scanLoop_hit (n : Int) (r : RecordText) (hr : r.wellFormed = true) (fuel : Nat)
    (tail : List Char) (item : InventoryItem) :
    scanLoop n (fuel + 1) n ⟨r.text ++ tail, false, false⟩ item
      = some (⟨tail, false, false⟩, renderRecord n r.item) := by
  simp [scanLoop, readRecord_text hr, IStream.ignore1, IStream.good]

theorem scanLoop_fail (n : Int) (fuel : Nat) (cur : Int) (f : IStream) (item : InventoryItem)
    (h : cur ≤ n) (hf : (readRecord f item).2.2 = false) :
    scanLoop n (fuel + 1) cur f item = some ((readRecord f item).1, notFoundMsg) := by
  simp [scanLoop, h, hf]

theorem scanLoop_past (n : Int) (fuel : Nat) (cur : Int) (f : IStream) (item : InventoryItem)
    (h : n < cur) : scanLoop n (fuel + 1) cur f item = some (f, notFoundMsg) := by
  simp [scanLoop, not_le.2 h]

theorem readRecord_empty (item : InventoryItem) :
    readRecord ⟨[], false, false⟩ item
      = (⟨[], true, true⟩, { item with itemDescription := [] }, false) := by
  simp [readRecord, IStream.getline, IStream.good, IStream.fail]

/-- After the well-formed records `rs`, a scan for a record number beyond them
ends in the "not found" message as soon as the next read fails. -/
theorem scanLoop_beyond (n : Int) (rs : List RecordText) (hwf : ∀ r ∈ rs, r.wellFormed = true)
    (tail : List Char) (hbad : ∀ item, (readRecord ⟨tail, false, false⟩ item).2.2 = false)
    (hn : (rs.length : Int) < n) (fuel : Nat) (hfuel : rs.length < fuel) (item : InventoryItem) :
    scanLoop n fuel 1 ⟨storeText rs ++ tail, false, false⟩ item
      = some ((readRecord ⟨tail, false, false⟩ (lastItem item rs)).1, notFoundMsg) := by
  obtain ⟨k, rfl⟩ : ∃ k, fuel = (k + 1) + rs.length := ⟨fuel - rs.length - 1, by omega⟩
  rw [scanLoop_skip n rs hwf (k + 1) 1 tail item (by omega)]
  exact scanLoop_fail n k _ _ _ (by omega) (hbad _)

/-- A scan for the number of one of the well-formed records `rs` prints that record,
whatever follows them in the file. -/
theorem scanLoop_found (rs : List RecordText) (hwf : ∀ r ∈ rs, r.wellFormed = true)
    (tail : List Char) (i : Nat) (r : RecordText) (hi : rs[i]? = some r) (fuel : Nat)
    (hfuel : i < fuel) (item : InventoryItem) :
    scanLoop ((i : Int) + 1) fuel 1 ⟨storeText rs ++ tail, false, false⟩ item
      = some (⟨storeText (rs.drop (i + 1)) ++ tail, false, false⟩,
          renderRecord ((i : Int) + 1) r.item) := by
  obtain ⟨k, rfl⟩ : ∃ k, fuel = (k + 1) + i := ⟨fuel - i - 1, by omega⟩
  have hlt : i < rs.length := by
    rcases Nat.lt_or_ge i rs.length with h | h
    · exact h
    · rw [List.getElem?_eq_none h] at hi
      cases hi
  have hsplit : rs = rs.take i ++ r :: rs.drop (i + 1) := by
    have hget : rs[i] = r := by
      rw [List.getElem?_eq_getElem hlt] at hi
      exact Option.some.inj hi
    rw [← hget]
    simp
  have hlen : (rs.take i).length = i := by
    rw [List.length_take]
    omega
  have htext : ∀ (a b : List RecordText), storeText (a ++ b) = storeText a ++ storeText b := by
    intro a b
    induction a with
    | nil => rfl
    | cons x a ih => simp [storeText, ih]
  have e : storeText rs ++ tail
      = storeText (rs.take i) ++ (r.text ++ (storeText (rs.drop (i + 1)) ++ tail)) := by
    conv_lhs => rw [hsplit]
    simp [htext, storeText]
  have hskip := scanLoop_skip ((i : Int) + 1) (rs.take i)
    (fun x hx => hwf x (List.mem_of_mem_take hx)) (k + 1) 1
    (r.text ++ (storeText (rs.drop (i + 1)) ++ tail)) item (by rw [hlen]; omega)
  rw [hlen] at hskip
  rw [e, hskip]
  have hc : (1 : Int) + (i : Int) = (i : Int) + 1 := by omega
  rw [hc]
  exact scanLoop_hit _ r (hwf r (List.getElem?_mem hi)) k _ _

/-! ## Digit counts, binary length and rounding -/

theorem digit_val_le {c : Char} (h : isDigit c = true) : c.toNat - 48 ≤ 9 := by
  simp only [isDigit, Bool.and_eq_true, decide_eq_true_eq] at h
  omega

theorem digitsVal_lt (ds : List Char) (h : ∀ c ∈ ds, isDigit c = true) :
    digitsVal ds < 10 ^ ds.length := by
  induction ds with
  | nil => simp [digitsVal]
  | cons c t ih =>
    have h1 := digit_val_le (h c (List.mem_cons_self _ _))
    have h2 := ih (fun x hx => h x (List.mem_cons_of_mem _ hx))
    rw [digitsVal_cons, List.length_cons, pow_succ]
    have h3 : (c.toNat - 48) * 10 ^ t.length ≤ 9 * 10 ^ t.length :=
      Nat.mul_le_mul_right _ h1
    omega

theorem digitsVal_append (xs ys : List Char) :
    digitsVal (xs ++ ys) = digitsVal xs * 10 ^ ys.length + digitsVal ys := by
  have h := foldl_digits (digitsVal xs) ys
  simp only [digitsVal, List.foldl_append] at h ⊢
  exact h

theorem natDigits_length (fuel n : Nat) (acc : List Char) (h : n < fuel) (hn : 0 < n) :
    acc.length < (natDigits fuel n acc).length
      ∧ 10 ^ ((natDigits fuel n acc).length - acc.length - 1) ≤ n := by
  induction fuel generalizing n acc with
  | zero => omega
  | succ k ih =>
    unfold natDigits
    split
    · simp
      omega
    · rename_i h10
      have hk : n / 10 < k := by omega
      have hp : 0 < n / 10 := by omega
      obtain ⟨h1, h2⟩ := ih (n / 10) (digitChar (n % 10) :: acc) hk hp
      simp only [List.length_cons] at h1 h2
      refine ⟨by omega, ?_⟩
      have e : (natDigits k (n / 10) (digitChar (n % 10) :: acc)).length - acc.length - 1
          = ((natDigits k (n / 10) (digitChar (n % 10) :: acc)).length - (acc.length + 1) - 1)
            + 1 := by omega
      rw [e, pow_succ]
      omega

theorem showNat_length_le (n j : Nat) (hn : 0 < n) (h : n < 10 ^ j) :
    (showNat n).length ≤ j := by
  have h2 := (natDigits_length (n + 1) n [] (Nat.lt_succ_self n) hn).2
  simp only [List.length_nil, Nat.sub_zero] at h2
  have h3 : 10 ^ ((showNat n).length - 1) < 10 ^ j := lt_of_le_of_lt h2 h
  have h4 := (Nat.pow_lt_pow_iff_right (by norm_num : 1 < 10)).1 h3
  omega

theorem pow_showNat_length_le (n : Nat) (hn : 0 < n) :
    10 ^ ((showNat n).length - 1) ≤ n := by
  have h2 := (natDigits_length (n + 1) n [] (Nat.lt_succ_self n) hn).2
  simpa using h2

theorem lt_pow_showNat_length (n : Nat) : n < 10 ^ (showNat n).length := by
  have h := digitsVal_lt (showNat n) (showNat_all n)
  rwa [digitsVal_showNat] at h

theorem bitLenAux_zero (fuel : Nat) : bitLenAux fuel 0 = 0 := by
  cases fuel <;> simp [bitLenAux]

theorem lt_pow_bitLenAux (fuel n : Nat) (h : n ≤ fuel) : n < 2 ^ bitLenAux fuel n := by
  induction fuel generalizing n with
  | zero =>
    have : n = 0 := by omega
    simp [this, bitLenAux]
  | succ k ih =>
    unfold bitLenAux
    split
    · rename_i h0
      simp [h0]
    · rename_i h0
      have := ih (n / 2) (by omega)
      rw [pow_succ]
      omega

theorem pow_bitLenAux_le (fuel n : Nat) (h : n ≤ fuel) (hn : 0 < n) :
    ∃ b, bitLenAux fuel n = b + 1 ∧ 2 ^ b ≤ n := by
  induction fuel generalizing n with
  | zero => omega
  | succ k ih =>
    unfold bitLenAux
    rw [if_neg (by omega)]
    rcases Nat.eq_zero_or_pos (n / 2) with h2 | h2
    · exact ⟨0, by simp [h2, bitLenAux_zero], by simpa using hn⟩
    · obtain ⟨b, hb, hp⟩ := ih (n / 2) (by omega) h2
      refine ⟨b + 1, by rw [hb], ?_⟩
      rw [pow_succ]
      omega

theorem lt_pow_bitLen (n : Nat) : n < 2 ^ bitLen n :=
  lt_pow_bitLenAux n n (Nat.le_refl n)

theorem pow_bitLen_le (n : Nat) (hn : 0 < n) : ∃ b, bitLen n = b + 1 ∧ 2 ^ b ≤ n :=
  pow_bitLenAux_le n n (Nat.le_refl n) hn

theorem roundDiv_le_succ (n d : Nat) : roundDiv n d ≤ n / d + 1 := by
  unfold roundDiv
  simp only
  split <;> omega

theorem roundDiv_le_of_lt (n d c : Nat) (h : n < d * c) : roundDiv n d ≤ c := by
  have h1 : n / d < c := Nat.div_lt_of_lt_mul h
  have h2 := roundDiv_le_succ n d
  omega

theorem roundDiv_le_of_two_lt (n d c : Nat) (h : 2 * n < (2 * c + 1) * d) :
    roundDiv n d ≤ c := by
  have hd : 0 < d := by
    rcases Nat.eq_zero_or_pos d with h0 | h0
    · simp [h0] at h
    · exact h0
  have hdm := Nat.div_add_mod n d
  have hr : n % d < d := Nat.mod_lt _ hd
  unfold roundDiv
  simp only
  split
  · rename_i hc
    have h2r : d ≤ 2 * (n % d) := by
      rcases hc with hc | hc
      · omega
      · omega
    have : (2 * (n / d) + 1) * d < (2 * c + 1) * d := by
      calc (2 * (n / d) + 1) * d = 2 * (d * (n / d)) + d := by ring
        _ ≤ 2 * (d * (n / d)) + 2 * (n % d) := by omega
        _ = 2 * n := by omega
        _ < (2 * c + 1) * d := h
    have := Nat.lt_of_mul_lt_mul_right this
    omega
  · by_contra hq
    have hq1 : c + 1 ≤ n / d := by omega
    have : (2 * c + 1) * d < 2 * n := by
      calc (2 * c + 1) * d < 2 * (d * (c + 1)) := by nlinarith
        _ ≤ 2 * (d * (n / d)) := by
          exact Nat.mul_le_mul_left _ (Nat.mul_le_mul_left _ hq1)
        _ ≤ 2 * n := by omega
    omega

theorem Decimal.den_pos (d : Decimal) : 0 < d.den := by
  unfold Decimal.den
  split <;> positivity

/-- Rounding to at most 53 binary digits stays below `(2^53 - 1) * 2^E` when
the exact value is below the midpoint `(2^54 - 1) * 2^(E - 1)`. -/
theorem roundShift_le (a b E : Nat) (hb : 0 < b) (hab : 2 * a < (2 ^ 54 - 1) * 2 ^ E * b) :
    roundDiv a (b * 2 ^ (if a < b * 2 ^ (bitLen a - (bitLen b + 53) + 53)
        then bitLen a - (bitLen b + 53) else bitLen a - (bitLen b + 53) + 1))
      * 2 ^ (if a < b * 2 ^ (bitLen a - (bitLen b + 53) + 53)
        then bitLen a - (bitLen b + 53) else bitLen a - (bitLen b + 53) + 1)
      ≤ (2 ^ 53 - 1) * 2 ^ E := by
  generalize hs1 : bitLen a - (bitLen b + 53) = s1
  obtain ⟨kb, hkb, hpb⟩ := pow_bitLen_le b hb
  have hlb := lt_pow_bitLen b
  have hla := lt_pow_bitLen a
  have hE : a < b * 2 ^ (E + 53) := by
    have h1 : (2 ^ 54 - 1) * 2 ^ E * b < 2 ^ 54 * 2 ^ E * b := by
      apply Nat.mul_lt_mul_of_pos_right _ hb
      apply Nat.mul_lt_mul_of_pos_right _ (by positivity)
      norm_num
    have h2 : 2 ^ 54 * 2 ^ E * b = 2 * (b * 2 ^ (E + 53)) := by
      rw [pow_add]
      ring
    omega
  -- validity of the shift and its bound
  have hV : ∀ s, s = (if a < b * 2 ^ (s1 + 53) then s1 else s1 + 1) →
      a < b * 2 ^ (s + 53) ∧ s ≤ E := by
    intro s hs
    by_cases ht : a < b * 2 ^ (s1 + 53)
    · rw [if_pos ht] at hs
      subst hs
      refine ⟨ht, ?_⟩
      by_contra hlt
      have hlt : E + 1 ≤ s := by omega
      have ha0 : 0 < a := by
        rcases Nat.eq_zero_or_pos a with h0 | h0
        · rw [h0] at hs1
          have : bitLen 0 = 0 := bitLenAux_zero 0
          omega
        · exact h0
      obtain ⟨ka, hka, hpa⟩ := pow_bitLen_le a ha0
      have hk : ka = kb + 1 + (s + 52) := by omega
      have h3 : b * 2 ^ (s + 52) < a := by
        calc b * 2 ^ (s + 52) < 2 ^ bitLen b * 2 ^ (s + 52) :=
              Nat.mul_lt_mul_of_pos_right hlb (by positivity)
          _ = 2 ^ ka := by rw [hkb, hk, ← pow_add]
          _ ≤ a := hpa
      have h4 : b * 2 ^ (E + 53) ≤ b * 2 ^ (s + 52) :=
        Nat.mul_le_mul_left _ (Nat.pow_le_pow_right (by norm_num) (by omega))
      omega
    · rw [if_neg ht] at hs
      subst hs
      refine ⟨?_, ?_⟩
      · have h5 : bitLen a ≤ kb + (s1 + 1 + 53) := by omega
        calc a < 2 ^ bitLen a := hla
          _ ≤ 2 ^ (kb + (s1 + 1 + 53)) := Nat.pow_le_pow_right (by norm_num) h5
          _ = 2 ^ kb * 2 ^ (s1 + 1 + 53) := by rw [pow_add]
          _ ≤ b * 2 ^ (s1 + 1 + 53) := Nat.mul_le_mul_right _ hpb
      · by_contra hlt
        have hlt : E ≤ s1 := by omega
        have h4 : b * 2 ^ (E + 53) ≤ b * 2 ^ (s1 + 53) :=
          Nat.mul_le_mul_left _ (Nat.pow_le_pow_right (by norm_num) (by omega))
        omega
  obtain ⟨hv, hsE⟩ := hV _ rfl
  generalize (if a < b * 2 ^ (s1 + 53) then s1 else s1 + 1) = s at hv hsE ⊢
  rcases Nat.lt_or_ge s E with hlt | hge
  · have hq : roundDiv a (b * 2 ^ s) ≤ 2 ^ 53 := by
      apply roundDiv_le_of_lt
      rw [pow_add] at hv
      calc a < b * (2 ^ s * 2 ^ 53) := hv
        _ = b * 2 ^ s * 2 ^ 53 := by ring
    obtain ⟨j, rfl⟩ : ∃ j, E = s + 1 + j := ⟨E - s - 1, by omega⟩
    calc roundDiv a (b * 2 ^ s) * 2 ^ s ≤ 2 ^ 53 * 2 ^ s := Nat.mul_le_mul_right _ hq
      _ ≤ (2 ^ 53 - 1) * 2 ^ (s + 1 + j) := by
        have h6 : 2 ^ (s + 1 + j) = 2 ^ s * (2 * 2 ^ j) := by
          rw [pow_add, pow_add]
          ring
        have h7 : 1 ≤ 2 ^ j := Nat.one_le_two_pow
        rw [h6]
        calc 2 ^ 53 * 2 ^ s = 2 ^ s * 2 ^ 53 := by ring
          _ ≤ 2 ^ s * ((2 ^ 53 - 1) * (2 * 2 ^ j)) := by
            apply Nat.mul_le_mul_left
            have : (2 : Nat) ^ 53 ≤ (2 ^ 53 - 1) * 2 := by norm_num
            calc (2 : Nat) ^ 53 ≤ (2 ^ 53 - 1) * 2 := this
              _ ≤ (2 ^ 53 - 1) * (2 * 2 ^ j) :=
                Nat.mul_le_mul_left _ (by omega)
          _ = (2 ^ 53 - 1) * (2 ^ s * (2 * 2 ^ j)) := by ring
  · have hs : s = E := by omega
    subst hs
    have hq : roundDiv a (b * 2 ^ s) ≤ 2 ^ 53 - 1 := by
      apply roundDiv_le_of_two_lt
      have : 2 * (2 ^ 53 - 1) + 1 = 2 ^ 54 - 1 := by norm_num
      rw [this]
      calc 2 * a < (2 ^ 54 - 1) * 2 ^ s * b := hab
        _ = (2 ^ 54 - 1) * (b * 2 ^ s) := by ring
    exact Nat.mul_le_mul_right _ hq

theorem toDouble_finite (dec : Decimal) (h : dec.overflows = false) :
    dec.toDouble.finite = true := by
  have hb := Decimal.den_pos dec
  simp only [Decimal.overflows, decide_eq_false_iff_not, not_le] at h
  have hT : (2 ^ 1024 - 2 ^ 970 : Nat) * 2 ^ 1074 * 2 = (2 ^ 54 - 1) * 2 ^ 2045 := by
    norm_num
  have hab : 2 * (dec.num * 2 ^ 1074) < (2 ^ 54 - 1) * 2 ^ 2045 * dec.den := by
    calc 2 * (dec.num * 2 ^ 1074) = dec.num * (2 ^ 1074 * 2) := by ring
      _ < (2 ^ 1024 - 2 ^ 970) * dec.den * (2 ^ 1074 * 2) :=
        Nat.mul_lt_mul_of_pos_right h (by positivity)
      _ = (2 ^ 1024 - 2 ^ 970) * 2 ^ 1074 * 2 * dec.den := by ring
      _ = (2 ^ 54 - 1) * 2 ^ 2045 * dec.den := by rw [hT]
  have := roundShift_le (dec.num * 2 ^ 1074) dec.den 2045 hb hab
  simpa only [Double.finite, Decimal.toDouble, DBL_MAX_UNITS, decide_eq_true_eq] using this

theorem extractDouble_finite (s : IStream) (old : Double) (h : old.finite = true) :
    (s.extractDouble old).2.finite = true := by
  unfold IStream.extractDouble
  simp only
  split
  · split
    · simp [Double.finite, Double.zero]
    · split
      · simp [Double.finite]
      · rename_i ho
        exact toDouble_finite _ (by simpa using ho)
  · exact h

/-! ## What `addRecord` writes can be read back -/

theorem span_digits (xs ys : List Char) (hx : ∀ c ∈ xs, isDigit c = true)
    (hy : ∀ c t, ys = c :: t → isDigit c = false) :
    (xs ++ ys).takeWhile isDigit = xs ∧ (xs ++ ys).dropWhile isDigit = ys := by
  induction xs with
  | nil =>
    cases ys with
    | nil => simp
    | cons c t => simp [List.takeWhile_cons, List.dropWhile_cons, hy c t rfl]
  | cons c t ih =>
    have hc : isDigit c = true := hx c (List.mem_cons_self _ _)
    have ht := ih (fun x hx1 => hx x (List.mem_cons_of_mem _ hx1))
    simp [List.takeWhile_cons, List.dropWhile_cons, hc, ht.1, ht.2]

theorem digit_ne_minus {c : Char} (h : isDigit c = true) : c ≠ '-' := by
  rintro rfl
  revert h
  decide

theorem digit_ne_plus {c : Char} (h : isDigit c = true) : c ≠ '+' := by
  rintro rfl
  revert h
  decide

theorem takeSign_digits (xs : List Char) (hx : ∀ c ∈ xs, isDigit c = true) :
    takeSign xs = (false, xs) := by
  cases xs with
  | nil => rfl
  | cons c t =>
    have hc : isDigit c = true := hx c (List.mem_cons_self _ _)
    simp [takeSign, digit_ne_minus hc, digit_ne_plus hc]

theorem scanInt_digits (xs : List Char) (hx : ∀ c ∈ xs, isDigit c = true) (hne : xs ≠ []) :
    scanInt xs = (some (digitsVal xs : Int), []) := by
  have h := span_digits xs [] hx (by intro c t h; cases h)
  simp only [List.append_nil] at h
  simp [scanInt, takeSign_digits xs hx, h.1, h.2, hne]

theorem scanInt_showInt (i : Int) : scanInt (showInt i) = (some i, []) := by
  unfold showInt
  split
  · rename_i hi
    have h := span_digits (showNat i.natAbs) [] (showNat_all _) (by intro c t h; cases h)
    simp only [List.append_nil] at h
    simp only [scanInt, takeSign, if_true, h.1, h.2, digitsVal_showNat]
    simp only [List.isEmpty_eq_true, showNat_ne_nil, if_false, Prod.mk.injEq, Option.some.injEq,
      and_true]
    omega
  · rename_i hi
    rw [scanInt_digits _ (showNat_all _) (showNat_ne_nil _), digitsVal_showNat]
    simp only [Prod.mk.injEq, Option.some.injEq, and_true]
    omega

theorem intTokenValue_showInt (i : Int) (h1 : INT_MIN ≤ i) (h2 : i ≤ INT_MAX) :
    intTokenValue (showInt i) = some i := by
  simp [intTokenValue, scanInt_showInt, h1, h2]

theorem scanFloat_assembled (sgn : Bool) (ip fp expo : List Char)
    (hip : ∀ c ∈ ip, isDigit c = true) (hne : ip ≠ [])
    (hfp : ∀ c ∈ fp, isDigit c = true)
    (hex : expo = [] ∨ ∃ s ed, expo = 'e' :: s :: ed ∧ (s = '+' ∨ s = '-') ∧ ed ≠ []
      ∧ ∀ c ∈ ed, isDigit c = true) :
    ∃ e : Int, scanFloat ((if sgn then ['-'] else []) ++ (ip ++ (fracText fp ++ expo)))
        = (some ⟨sgn, digitsVal (ip ++ fp), e - (fp.length : Int)⟩, [])
      ∧ (expo = [] → e = 0)
      ∧ (∀ ed, expo = 'e' :: '+' :: ed → e = (digitsVal ed : Int))
      ∧ (∀ ed, expo = 'e' :: '-' :: ed → e = -(digitsVal ed : Int)) := by
  have hts : takeSign ((if sgn then ['-'] else []) ++ (ip ++ (fracText fp ++ expo)))
      = (sgn, ip ++ (fracText fp ++ expo)) := by
    cases sgn with
    | true => simp [takeSign]
    | false =>
      cases ip with
      | nil => exact absurd rfl hne
      | cons c t =>
        have hc : isDigit c = true := hip c (List.mem_cons_self _ _)
        simp [takeSign, digit_ne_minus hc, digit_ne_plus hc]
  have hexpo : ∀ c t, expo = c :: t → isDigit c = false := by
    intro c t h
    rcases hex with h0 | ⟨s, ed, h1, -⟩
    · rw [h0] at h
      cases h
    · rw [h1] at h
      cases h
      decide
  have hY : ∀ c t, fracText fp ++ expo = c :: t → isDigit c = false := by
    intro c t h
    cases fp with
    | nil => exact hexpo c t (by simpa [fracText] using h)
    | cons x u =>
      simp only [fracText, List.isEmpty_cons, Bool.false_eq_true, if_false, List.cons_append,
        List.cons.injEq] at h
      rw [← h.1]
      decide
  have hsp := span_digits ip (fracText fp ++ expo) hip hY
  have hfr : takeFrac (fracText fp ++ expo) = (fp, expo) := by
    cases fp with
    | nil =>
      rcases hex with h0 | ⟨s, ed, h1, -⟩
      · simp [fracText, h0, takeFrac]
      · simp [fracText, h1, takeFrac]
    | cons x u =>
      have h := span_digits (x :: u) expo hfp hexpo
      simp only [fracText, List.isEmpty_cons, Bool.false_eq_true, if_false, List.cons_append,
        takeFrac, if_true]
      rw [← List.cons_append, h.1, h.2]
  have hip0 : ip.isEmpty = false := by
    cases ip with
    | nil => exact absurd rfl hne
    | cons c t => rfl
  simp only [scanFloat, hts, hsp.1, hsp.2, hfr, hip0, Bool.false_and, Bool.false_eq_true,
    if_false]
  rcases hex with h0 | ⟨s, ed, h1, hs, hed, hdig⟩
  · refine ⟨0, ?_, fun _ => rfl, ?_, ?_⟩
    · simp [h0, takeExp, digitsVal]
    · intro ed h
      rw [h0] at h
      cases h
    · intro ed h
      rw [h0] at h
      cases h
  · have h := span_digits ed [] hdig (by intro c t h; cases h)
    simp only [List.append_nil] at h
    have hed0 : ed.isEmpty = false := by
      cases ed with
      | nil => exact absurd rfl hed
      | cons c t => rfl
    rcases hs with rfl | rfl
    · refine ⟨(digitsVal ed : Int), ?_, ?_, ?_, ?_⟩
      · simp [h1, takeExp, takeSign, h.1, h.2, hed0]
      · intro h
        rw [h1] at h
        cases h
      · intro ed2 h
        rw [h1] at h
        cases h
        rfl
      · intro ed2 h
        rw [h1] at h
        cases h
    · refine ⟨-(digitsVal ed : Int), ?_, ?_, ?_, ?_⟩
      · simp [h1, takeExp, takeSign, h.1, h.2, hed0]
      · intro h
        rw [h1] at h
        cases h
      · intro ed2 h
        rw [h1] at h
        cases h
      · intro ed2 h
        rw [h1] at h
        cases h
        rfl

theorem stripZeros_all (ds : List Char) (h : ∀ c ∈ ds, isDigit c = true) :
    ∀ c ∈ stripZeros ds, isDigit c = true := by
  cases ds with
  | nil => simp [stripZeros]
  | cons x t =>
    intro c hc
    simp only [stripZeros, List.mem_cons] at hc
    rcases hc with rfl | hc
    · exact h _ (List.mem_cons_self _ _)
    · exact h c (List.mem_cons_of_mem _ ((List.rdropWhile_prefix _ _).subset hc))

theorem stripZeros_ne_nil (ds : List Char) (h : ds ≠ []) : stripZeros ds ≠ [] := by
  cases ds with
  | nil => exact absurd rfl h
  | cons x t => simp [stripZeros]

theorem pad2_all (ds : List Char) (h : ∀ c ∈ ds, isDigit c = true) :
    ∀ c ∈ pad2 ds, isDigit c = true := by
  intro c hc
  unfold pad2 at hc
  split at hc
  · rcases List.mem_cons.1 hc with rfl | hc
    · decide
    · exact h c hc
  · exact h c hc

theorem pad2_ne_nil (ds : List Char) (h : ds ≠ []) : pad2 ds ≠ [] := by
  unfold pad2
  split
  · simp
  · exact h

set_option exponentiation.threshold 3000 in
theorem no_overflow_of_lt (sgn : Bool) (m t : Nat) (e : Int) (hm : m < 10 ^ t)
    (ht : (t : Int) + e ≤ 308) : (Decimal.mk sgn m e).overflows = false := by
  have hT : (10 : Nat) ^ 308 < 2 ^ 1024 - 2 ^ 970 := by norm_num
  simp only [Decimal.overflows, decide_eq_false_iff_not, not_le, Decimal.num, Decimal.den]
  by_cases he : 0 ≤ e
  · obtain ⟨k, rfl⟩ := Int.eq_ofNat_of_zero_le he
    simp only [he, if_true, Int.toNat_ofNat, Nat.mul_one]
    have h1 : t + k ≤ 308 := by omega
    calc m * 10 ^ k < 10 ^ t * 10 ^ k := Nat.mul_lt_mul_of_pos_right hm (by positivity)
      _ = 10 ^ (t + k) := by rw [pow_add]
      _ < 2 ^ 1024 - 2 ^ 970 :=
        lt_of_le_of_lt (Nat.pow_le_pow_right (by norm_num) h1) hT
  · simp only [he, if_false]
    have h1 : t ≤ 308 + (-e).toNat := by omega
    calc m < 10 ^ t := hm
      _ ≤ 10 ^ (308 + (-e).toNat) := Nat.pow_le_pow_right (by norm_num) h1
      _ = 10 ^ 308 * 10 ^ (-e).toNat := by rw [pow_add]
      _ < (2 ^ 1024 - 2 ^ 970) * 10 ^ (-e).toNat :=
        Nat.mul_lt_mul_of_pos_right hT (by positivity)

theorem no_overflow_of_mul_lt (sgn : Bool) (m k : Nat)
    (h : m * 10 ^ k < 2 ^ 1024 - 2 ^ 970) : (Decimal.mk sgn m (k : Int)).overflows = false := by
  simp only [Decimal.overflows, decide_eq_false_iff_not, not_le, Decimal.num, Decimal.den]
  have he : (0 : Int) ≤ (k : Int) := Int.ofNat_nonneg k
  simpa only [he, if_true, Int.toNat_ofNat, Nat.mul_one] using h

theorem digitsVal_pad2 (ds : List Char) : digitsVal (pad2 ds) = digitsVal ds := by
  unfold pad2
  split
  · rw [digitsVal_cons]
    simp
  · rfl

theorem digitsVal_replicate_zero (z : Nat) : digitsVal (List.replicate z '0') = 0 := by
  induction z with
  | zero => rfl
  | succ k ih =>
    rw [List.replicate_succ, digitsVal_cons, ih]
    simp

theorem rdropWhile_zero (t : List Char) :
    ∃ z, t = t.rdropWhile (fun x => x == '0') ++ List.replicate z '0' := by
  refine ⟨((t.reverse.takeWhile (fun x => x == '0')).reverse).length, ?_⟩
  have h1 : t = (t.reverse.dropWhile (fun x => x == '0')).reverse
      ++ (t.reverse.takeWhile (fun x => x == '0')).reverse := by
    rw [← List.reverse_append, List.takeWhile_append_dropWhile, List.reverse_reverse]
  have h2 : (t.reverse.takeWhile (fun x => x == '0')).reverse
      = List.replicate ((t.reverse.takeWhile (fun x => x == '0')).reverse).length '0' := by
    apply List.eq_replicate_of_mem
    intro c hc
    have := List.mem_takeWhile_imp (List.mem_reverse.1 hc)
    simpa using this
  rw [← h2]
  exact h1

theorem stripZeros_value (ds : List Char) :
    (stripZeros ds).length ≤ ds.length
      ∧ digitsVal (stripZeros ds) * 10 ^ (ds.length - (stripZeros ds).length) = digitsVal ds := by
  cases ds with
  | nil => simp [stripZeros, digitsVal]
  | cons c t =>
    obtain ⟨z, hz⟩ := rdropWhile_zero t
    have hlen : t.length = (t.rdropWhile (fun x => x == '0')).length + z := by
      conv_lhs => rw [hz]
      simp
    have hval : digitsVal (c :: t)
        = digitsVal (c :: t.rdropWhile (fun x => x == '0')) * 10 ^ z := by
      conv_lhs => rw [hz]
      rw [← List.cons_append, digitsVal_append, digitsVal_replicate_zero]
      simp
    simp only [stripZeros, List.length_cons]
    refine ⟨by omega, ?_⟩
    have e : t.length + 1 - ((t.rdropWhile (fun x => x == '0')).length + 1) = z := by omega
    rw [e, hval]

theorem scanFloat_generalBody (sgn : Bool) (sig : List Char) (x : Int)
    (hsig : ∀ c ∈ sig, isDigit c = true) (hsigne : sig ≠ []) :
    ∃ dec : Decimal,
      scanFloat ((if sgn then ['-'] else []) ++ generalBody sig x) = (some dec, [])
      ∧ (x ≤ 307 → dec.overflows = false)
      ∧ (6 ≤ x → dec.mant = digitsVal sig ∧ dec.exp = x - ((sig.length : Int) - 1)) := by
  have hzero : ∀ c ∈ ['0'], isDigit c = true := by
    intro c hc
    rcases List.mem_singleton.1 hc with rfl
    decide
  unfold generalBody
  by_cases h1 : -4 ≤ x ∧ x < 6
  · rw [if_pos h1]
    by_cases h2 : 0 ≤ x
    · rw [if_pos h2]
      simp only
      generalize hpad : sig ++ List.replicate (x.toNat + 1 - sig.length) '0' = padded
      have hpadall : ∀ c ∈ padded, isDigit c = true := by
        intro c hc
        rw [← hpad] at hc
        rcases List.mem_append.1 hc with hc | hc
        · exact hsig c hc
        · rw [List.eq_of_mem_replicate hc]
          decide
      have hpadne : padded ≠ [] := by
        rw [← hpad]
        simp [hsigne]
      have htake : padded.take (x.toNat + 1) ≠ [] := by
        cases padded with
        | nil => exact absurd rfl hpadne
        | cons c t => simp
      obtain ⟨e, hscan, he0, -, -⟩ := scanFloat_assembled sgn (padded.take (x.toNat + 1))
        (padded.drop (x.toNat + 1)) [] (fun c hc => hpadall c (List.mem_of_mem_take hc)) htake
        (fun c hc => hpadall c (List.mem_of_mem_drop hc)) (Or.inl rfl)
      rw [List.append_nil] at hscan
      refine ⟨_, hscan, ?_, ?_⟩
      · intro _
        apply no_overflow_of_lt sgn _ (padded.take (x.toNat + 1) ++ padded.drop (x.toNat + 1)).length
        · apply digitsVal_lt
          rw [List.take_append_drop]
          exact hpadall
        · rw [he0 rfl]
          have hl : (padded.take (x.toNat + 1)).length ≤ x.toNat + 1 := by
            rw [List.length_take]
            exact Nat.min_le_left _ _
          simp only [List.length_append, Nat.cast_add]
          omega
      · intro h6
        omega
    · rw [if_neg h2]
      have hfp : ∀ c ∈ List.replicate ((-x).toNat - 1) '0' ++ sig, isDigit c = true := by
        intro c hc
        rcases List.mem_append.1 hc with hc | hc
        · rw [List.eq_of_mem_replicate hc]
          decide
        · exact hsig c hc
      have hfpne : (List.replicate ((-x).toNat - 1) '0' ++ sig).isEmpty = false := by
        cases sig with
        | nil => exact absurd rfl hsigne
        | cons c t => simp
      obtain ⟨e, hscan, he0, -, -⟩ := scanFloat_assembled sgn ['0']
        (List.replicate ((-x).toNat - 1) '0' ++ sig) [] hzero (by simp) hfp (Or.inl rfl)
      simp only [fracText, hfpne, Bool.false_eq_true, if_false, List.append_nil,
        List.singleton_append] at hscan
      refine ⟨_, hscan, ?_, ?_⟩
      · intro _
        apply no_overflow_of_lt sgn _
          (['0'] ++ (List.replicate ((-x).toNat - 1) '0' ++ sig)).length
        · apply digitsVal_lt
          intro c hc
          rcases List.mem_cons.1 hc with rfl | hc
          · decide
          · exact hfp c hc
        · rw [he0 rfl]
          simp only [List.length_append, List.length_singleton, Nat.cast_add, Nat.cast_one]
          omega
      · intro h6
        omega
  · rw [if_neg h1]
    have htake : sig.take 1 ≠ [] := by
      cases sig with
      | nil => exact absurd rfl hsigne
      | cons c t => simp
    have hlen1 : (sig.take 1).length = 1 := by
      cases sig with
      | nil => exact absurd rfl hsigne
      | cons c t => simp
    have hlen2 : ((sig.drop 1).length : Int) = (sig.length : Int) - 1 := by
      cases sig with
      | nil => exact absurd rfl hsigne
      | cons c t => simp
    obtain ⟨e, hscan, -, hplus, hminus⟩ := scanFloat_assembled sgn (sig.take 1) (sig.drop 1)
      ('e' :: (if x < 0 then '-' else '+') :: pad2 (showNat x.natAbs))
      (fun c hc => hsig c (List.mem_of_mem_take hc)) htake
      (fun c hc => hsig c (List.mem_of_mem_drop hc))
      (Or.inr ⟨_, _, rfl, by split <;> simp, pad2_ne_nil _ (showNat_ne_nil _),
        pad2_all _ (showNat_all _)⟩)
    have he : e = x := by
      by_cases hx : x < 0
      · have := hminus (pad2 (showNat x.natAbs)) (by rw [if_pos hx])
        rw [this, digitsVal_pad2, digitsVal_showNat]
        omega
      · have := hplus (pad2 (showNat x.natAbs)) (by rw [if_neg hx])
        rw [this, digitsVal_pad2, digitsVal_showNat]
        omega
    rw [he, List.take_append_drop, hlen2] at hscan
    refine ⟨_, hscan, ?_, ?_⟩
    · intro hx
      apply no_overflow_of_lt sgn _ sig.length _ (digitsVal_lt sig hsig)
      omega
    · intro _
      exact ⟨rfl, rfl⟩

theorem sixDigits_spec (n d : Nat) (hn : 0 < n) (hd : 0 < d) :
    (sixDigits n d).1 ≤ 10 ^ 6
      ∧ (∀ j : Nat, n < d * 10 ^ (j + 1) → (sixDigits n d).2 ≤ (j : Int))
      ∧ (∀ k : Nat, (sixDigits n d).2 = (k : Int) → 5 < k →
          (sixDigits n d).1 = roundDiv n (d * 10 ^ (k - 5))) := by
  unfold sixDigits
  by_cases hdn : d ≤ n
  · rw [if_pos hdn]
    have hq : 0 < n / d := Nat.div_pos hdn hd
    have hlt : n / d < 10 ^ (showNat (n / d)).length := lt_pow_showNat_length _
    have hlen : 0 < (showNat (n / d)).length :=
      List.length_pos.2 (showNat_ne_nil _)
    have hnlt : n < d * 10 ^ ((showNat (n / d)).length - 1 + 1) := by
      rw [Nat.sub_add_cancel hlen]
      calc n < d * (n / d + 1) := Nat.lt_mul_div_succ n hd
        _ ≤ d * 10 ^ (showNat (n / d)).length := Nat.mul_le_mul_left _ hlt
    have hx0 : ∀ j : Nat, n < d * 10 ^ (j + 1) → (showNat (n / d)).length - 1 ≤ j := by
      intro j hj
      have h1 : n / d < 10 ^ (j + 1) := Nat.div_lt_of_lt_mul hj
      have h2 := showNat_length_le (n / d) (j + 1) hq h1
      omega
    generalize (showNat (n / d)).length - 1 = x0 at hnlt hx0 ⊢
    simp only
    by_cases h5 : x0 ≤ 5
    · rw [if_pos h5]
      simp only
      refine ⟨?_, ?_, ?_⟩
      · apply roundDiv_le_of_lt
        obtain ⟨i, hi, hi6⟩ : ∃ i, 5 - x0 = i ∧ x0 + 1 + i = 6 := ⟨5 - x0, rfl, by omega⟩
        rw [hi]
        calc n * 10 ^ i < d * 10 ^ (x0 + 1) * 10 ^ i :=
              Nat.mul_lt_mul_of_pos_right hnlt (by positivity)
          _ = d * 10 ^ 6 := by
            rw [Nat.mul_assoc, ← pow_add, hi6]
      · intro j hj
        exact_mod_cast hx0 j hj
      · intro k hk h5k
        have : x0 = k := by exact_mod_cast hk
        omega
    · rw [if_neg h5]
      simp only
      refine ⟨?_, ?_, ?_⟩
      · apply roundDiv_le_of_lt
        have : x0 + 1 = x0 - 5 + 6 := by omega
        rw [this, pow_add] at hnlt
        calc n < d * (10 ^ (x0 - 5) * 10 ^ 6) := hnlt
          _ = d * 10 ^ (x0 - 5) * 10 ^ 6 := by ring
      · intro j hj
        exact_mod_cast hx0 j hj
      · intro k hk _
        have : x0 = k := by exact_mod_cast hk
        rw [this]
  · rw [if_neg hdn]
    simp only
    have hdn : n < d := by omega
    have hc : 0 < (d - 1) / n := Nat.div_pos (by omega) hn
    have hk := pow_showNat_length_le ((d - 1) / n) hc
    have hlen : 0 < (showNat ((d - 1) / n)).length :=
      List.length_pos.2 (showNat_ne_nil _)
    generalize (showNat ((d - 1) / n)).length = k at hk hlen ⊢
    refine ⟨?_, ?_, ?_⟩
    · apply roundDiv_le_of_lt
      obtain ⟨k1, rfl⟩ : ∃ k1, k = k1 + 1 := ⟨k - 1, by omega⟩
      simp only [Nat.add_sub_cancel] at hk
      have h1 : n * 10 ^ k1 < d := by
        calc n * 10 ^ k1 ≤ n * ((d - 1) / n) := Nat.mul_le_mul_left _ hk
          _ ≤ d - 1 := Nat.mul_div_le _ _
          _ < d := by omega
      calc n * 10 ^ (5 + (k1 + 1)) = n * 10 ^ k1 * 10 ^ 6 := by
            have : 5 + (k1 + 1) = k1 + 6 := by omega
            rw [this, pow_add]
            ring
        _ < d * 10 ^ 6 := Nat.mul_lt_mul_of_pos_right h1 (by positivity)
    · intro j _
      omega
    · intro k2 hk2 _
      omega

set_option exponentiation.threshold 3000 in
theorem scanFloat_showDouble (d : Double) (hf : d.finite = true) :
    ∃ dec : Decimal, scanFloat (showDouble d) = (some dec, []) ∧ dec.overflows = false := by
  have hT : (10 : Nat) ^ 308 < 2 ^ 1024 - 2 ^ 970 := by norm_num
  have hT3 : 179769 * (10 : Nat) ^ 303 < 2 ^ 1024 - 2 ^ 970 := by norm_num
  have hN1 : DBL_MAX_UNITS < 2 ^ 1074 * 10 ^ (308 + 1) := by
    unfold DBL_MAX_UNITS
    norm_num
  have hN2 : 2 * DBL_MAX_UNITS < (2 * 179769 + 1) * (2 ^ 1074 * 10 ^ (308 - 5)) := by
    unfold DBL_MAX_UNITS
    norm_num
  have hfin : d.units ≤ DBL_MAX_UNITS := by simpa [Double.finite] using hf
  unfold showDouble
  by_cases h0 : d.units = 0
  · simp only [h0, if_true]
    obtain ⟨e, hscan, he0, -, -⟩ := scanFloat_assembled d.neg ['0'] [] [] (by
      intro c hc
      rcases List.mem_singleton.1 hc with rfl
      decide) (by simp) (by simp) (Or.inl rfl)
    simp only [fracText, List.isEmpty_nil, if_true, List.append_nil] at hscan
    refine ⟨_, hscan, ?_⟩
    apply no_overflow_of_lt d.neg _ 1
    · decide
    · rw [he0 rfl]
      simp
  · simp only [h0, if_false]
    have hn : 0 < d.units := Nat.pos_of_ne_zero h0
    obtain ⟨hs6, hx0, hround⟩ := sixDigits_spec d.units (2 ^ 1074) hn (by positivity)
    have hx308 : (sixDigits d.units (2 ^ 1074)).2 ≤ 308 := by
      have := hx0 308 (lt_of_le_of_lt hfin hN1)
      exact_mod_cast this
    generalize hs : (sixDigits d.units (2 ^ 1074)).1 = s at hs6 hround ⊢
    generalize hx : (sixDigits d.units (2 ^ 1074)).2 = x0 at hx308 hround ⊢
    have hlen : ∀ j, 0 < j → s < 10 ^ j → (showNat s).length ≤ j := by
      intro j hj hlt
      rcases Nat.eq_zero_or_pos s with hz | hp
      · rw [hz]
        have : (showNat 0).length = 1 := by decide
        omega
      · exact showNat_length_le s j hp hlt
    have hlen7 : (showNat s).length ≤ 7 :=
      hlen 7 (by norm_num) (lt_of_le_of_lt hs6 (by norm_num))
    obtain ⟨hsl, hsv⟩ := stripZeros_value (showNat s)
    rw [digitsVal_showNat] at hsv
    have hsne : stripZeros (showNat s) ≠ [] := stripZeros_ne_nil _ (showNat_ne_nil _)
    have hsl1 : 0 < (stripZeros (showNat s)).length := List.length_pos.2 hsne
    obtain ⟨dec, hscan, hcrude, hexact⟩ := scanFloat_generalBody d.neg (stripZeros (showNat s))
      (((showNat s).length : Int) - 1 + x0 - 5) (stripZeros_all _ (showNat_all _)) hsne
    refine ⟨dec, hscan, ?_⟩
    by_cases hx307 : ((showNat s).length : Int) - 1 + x0 - 5 ≤ 307
    · exact hcrude hx307
    · have hx0ge : 307 ≤ x0 := by omega
      obtain ⟨k, rfl⟩ := Int.eq_ofNat_of_zero_le (by omega : (0 : Int) ≤ x0)
      have hk : 307 ≤ k ∧ k ≤ 308 := by omega
      have hsr := hround k rfl (by omega)
      obtain ⟨hm, he⟩ := hexact (by omega)
      have hdec : dec = ⟨dec.neg, dec.mant, dec.exp⟩ := rfl
      rw [hdec, hm, he]
      rcases Nat.lt_or_ge k 308 with hk7 | hk8
      · have hk307 : k = 307 := by omega
        subst hk307
        have hl7 : (showNat s).length = 7 := by omega
        have hexp : (((showNat s).length : Int) - 1 + ((307 : Nat) : Int) - 5
            - (((stripZeros (showNat s)).length : Int) - 1))
            = ((309 - (stripZeros (showNat s)).length : Nat) : Int) := by omega
        rw [hexp]
        apply no_overflow_of_mul_lt
        have hsplit : 309 - (stripZeros (showNat s)).length
            = ((showNat s).length - (stripZeros (showNat s)).length) + 302 := by omega
        rw [hsplit, pow_add, ← Nat.mul_assoc, hsv]
        calc s * 10 ^ 302 ≤ 10 ^ 6 * 10 ^ 302 := Nat.mul_le_mul_right _ hs6
          _ = 10 ^ 308 := by norm_num
          _ < 2 ^ 1024 - 2 ^ 970 := hT
      · have hk308 : k = 308 := by omega
        subst hk308
        have hs179 : s ≤ 179769 := by
          rw [hsr]
          apply roundDiv_le_of_two_lt
          calc 2 * d.units ≤ 2 * DBL_MAX_UNITS := Nat.mul_le_mul_left _ hfin
            _ < (2 * 179769 + 1) * (2 ^ 1074 * 10 ^ (308 - 5)) := hN2
        have hl6a : (showNat s).length ≤ 6 :=
          hlen 6 (by norm_num) (lt_of_le_of_lt hs179 (by norm_num))
        have hl6 : (showNat s).length = 6 := by omega
        have hexp : (((showNat s).length : Int) - 1 + ((308 : Nat) : Int) - 5
            - (((stripZeros (showNat s)).length : Int) - 1))
            = ((309 - (stripZeros (showNat s)).length : Nat) : Int) := by omega
        rw [hexp]
        apply no_overflow_of_mul_lt
        have hsplit : 309 - (stripZeros (showNat s)).length
            = ((showNat s).length - (stripZeros (showNat s)).length) + 303 := by omega
        rw [hsplit, pow_add, ← Nat.mul_assoc, hsv]
        calc s * 10 ^ 303 ≤ 179769 * 10 ^ 303 := Nat.mul_le_mul_right _ hs179
          _ < 2 ^ 1024 - 2 ^ 970 := hT3

theorem floatTokenValue_showDouble (d : Double) (hf : d.finite = true) :
    (floatTokenValue (showDouble d)).isSome = true := by
  obtain ⟨dec, hscan, hov⟩ := scanFloat_showDouble d hf
  simp [floatTokenValue, hscan, hov]

theorem intToken_no_newline {t : List Char} (h : (intTokenValue t).isSome = true) :
    ∀ c ∈ t, isNewline c = false := by
  intro c hc
  obtain ⟨v, hv⟩ := Option.isSome_iff_exists.1 h
  have hs := (intTokenValue_some hv).1
  cases hn : isNewline c with
  | false => rfl
  | true =>
    have hc10 : c = '\n' := by
      apply Char.ext
      apply UInt32.ext
      simpa [isNewline, Char.toNat] using hn
    obtain ⟨a, b, rfl⟩ := List.append_of_mem hc
    rw [hc10, scanInt_stop] at hs
    simp at hs

theorem floatToken_no_newline {t : List Char} (h : (floatTokenValue t).isSome = true) :
    ∀ c ∈ t, isNewline c = false := by
  intro c hc
  obtain ⟨v, hv⟩ := Option.isSome_iff_exists.1 h
  obtain ⟨dec, hs, -, -⟩ := floatTokenValue_some hv
  cases hn : isNewline c with
  | false => rfl
  | true =>
    have hc10 : c = '\n' := by
      apply Char.ext
      apply UInt32.ext
      simpa [isNewline, Char.toNat] using hn
    obtain ⟨a, b, rfl⟩ := List.append_of_mem hc
    rw [hc10, scanFloat_stop] at hs
    simp at hs

/-! ## The validation loops of `addRecord` -/

theorem retryLoop_some {α : Type} (extract : IStream → α → IStream × α) (isNeg : α → Bool)
    (prompt err : List Char) (P : α → Prop) (hP : ∀ s v, P v → P (extract s v).2)
    (fuel : Nat) (cin : IStream) (v : α) (out : List Char) (res : IStream × α × List Char)
    (hv : P v) (h : retryLoop extract isNeg prompt err fuel cin v out = some res) :
    P res.2.1 ∧ isNeg res.2.1 = false := by
  induction fuel generalizing cin v out with
  | zero => simp [retryLoop] at h
  | succ k ih =>
    simp only [retryLoop] at h
    cases hn : isNeg (extract cin v).2 with
    | true =>
      rw [hn] at h
      simp only [if_true] at h
      exact ih _ _ _ (hP cin v hv) h
    | false =>
      rw [hn] at h
      simp only [Bool.false_eq_true, if_false, Option.some.injEq] at h
      rw [← h]
      exact ⟨hP cin v hv, hn⟩

theorem retryLoop_reject {α : Type} (extract : IStream → α → IStream × α) (isNeg : α → Bool)
    (prompt err : List Char) (fuel : Nat) (cin : IStream) (v : α) (out : List Char)
    (hn : isNeg (extract cin v).2 = true) :
    retryLoop extract isNeg prompt err (fuel + 1) cin v out
      = retryLoop extract isNeg prompt err fuel (extract cin v).1.clear.ignoreLine
          (extract cin v).2 (out ++ prompt ++ err) := by
  simp [retryLoop, hn]

theorem retryLoop_accept {α : Type} (extract : IStream → α → IStream × α) (isNeg : α → Bool)
    (prompt err : List Char) (fuel : Nat) (cin : IStream) (v : α) (out : List Char)
    (hf : (extract cin v).1.fail = false) (hn : isNeg (extract cin v).2 = false) :
    retryLoop extract isNeg prompt err (fuel + 1) cin v out
      = some ((extract cin v).1, (extract cin v).2, out ++ prompt) := by
  simp [retryLoop, hn, hf]

theorem extractInt_range (s : IStream) (old : Int) (h : INT_MIN ≤ old ∧ old ≤ INT_MAX) :
    INT_MIN ≤ (s.extractInt old).2 ∧ (s.extractInt old).2 ≤ INT_MAX := by
  have h0 : INT_MIN ≤ (0 : Int) ∧ (0 : Int) ≤ INT_MAX := by decide
  have h1 : INT_MIN ≤ INT_MIN ∧ INT_MIN ≤ INT_MAX := by decide
  have h2 : INT_MIN ≤ INT_MAX ∧ INT_MAX ≤ INT_MAX := by decide
  unfold IStream.extractInt
  simp only
  split
  · split
    · exact h0
    · split
      · exact h1
      · split
        · exact h2
        · simp only
          omega
  · exact h

theorem getline_no_newline (s : IStream) :
    ∀ c ∈ (s.getline []).2, (!isNewline c) = true := by
  intro c hc
  unfold IStream.getline at hc
  split at hc
  · split at hc
    · simp at hc
    · simp only at hc
      split at hc
      · exact List.mem_takeWhile_imp (p := fun x => !isNewline x) hc
      · exact List.mem_takeWhile_imp (p := fun x => !isNewline x) hc
  · simp at hc

theorem Double.value_nonneg (d : Double) (h : d.isNeg = false) : 0 ≤ d.value := by
  have hp : (0 : ℚ) < (2 : ℚ) ^ 1074 := by positivity
  unfold Double.value
  cases hn : d.neg with
  | false =>
    simp only [Bool.false_eq_true, if_false, one_mul]
    exact div_nonneg (Nat.cast_nonneg _) hp.le
  | true =>
    have hm : d.units = 0 := by simpa [Double.isNeg, hn] using h
    simp [hm]

theorem Double.isNeg_iff (d : Double) : d.isNeg = true ↔ d.value < 0 := by
  have hp : (0 : ℚ) < (2 : ℚ) ^ 1074 := by positivity
  constructor
  · intro h
    simp only [Double.isNeg, Bool.and_eq_true, bne_iff_ne, ne_eq] at h
    have hm : (0 : ℚ) < (d.units : ℚ) := Nat.cast_pos.2 (Nat.pos_of_ne_zero h.2)
    have := div_pos hm hp
    simp only [Double.value, h.1, if_true]
    rw [neg_one_mul, neg_div]
    linarith
  · intro h
    cases hn : d.isNeg with
    | true => rfl
    | false => exact absurd (Double.value_nonneg d hn) (not_le.2 h)

theorem addRecord_some {fuel : Nat} {cin : IStream} {file : FStream} {junk : InventoryItem}
    {o : Outcome} (h : addRecord fuel cin file junk = some o) :
    ∃ (q : Int) (w r : Double) (cin2 cin3 cin4 : IStream) (out1 out2 out3 : List Char),
      quantityLoop fuel (cin.ignore1.getline []).1 junk.quantityOnHand
          "\nEnter item description (Text): ".toList = some (cin2, q, out1)
      ∧ wholesaleLoop fuel cin2 junk.wholesaleCost out1 = some (cin3, w, out2)
      ∧ retailLoop fuel cin3 junk.retailCost out2 = some (cin4, r, out3)
      ∧ o = ⟨cin4, file.append (writeRecord ⟨(cin.ignore1.getline []).2, q, w, r⟩),
          out3 ++ "\nRecord added successfully.\n".toList⟩ := by
  unfold addRecord at h
  simp only at h
  split at h
  · cases h
  · rename_i cin2 q out1 hq
    split at h
    · cases h
    · rename_i cin3 w out2 hw
      split at h
      · cases h
      · rename_i cin4 r out3 hr
        simp only [Option.some.injEq] at h
        exact ⟨q, w, r, cin2, cin3, cin4, out1, out2, out3, hq, hw, hr, h.symm⟩

theorem quantityLoop_nonneg {fuel : Nat} {cin : IStream} {v : Int} {out : List Char}
    {res : IStream × Int × List Char} (h : quantityLoop fuel cin v out = some res) :
    0 ≤ res.2.1 := by
  have := (retryLoop_some _ _ _ _ (fun _ => True) (fun _ _ _ => trivial) _ _ _ _ _
    trivial h).2
  simpa using this

theorem quantityLoop_range {fuel : Nat} {cin : IStream} {v : Int} {out : List Char}
    {res : IStream × Int × List Char} (hv : INT_MIN ≤ v ∧ v ≤ INT_MAX)
    (h : quantityLoop fuel cin v out = some res) : INT_MIN ≤ res.2.1 ∧ res.2.1 ≤ INT_MAX :=
  (retryLoop_some IStream.extractInt _ _ _ (fun v => INT_MIN ≤ v ∧ v ≤ INT_MAX)
    (fun s v hv => extractInt_range s v hv) _ _ _ _ _ hv h).1

theorem costLoop_spec (prompt err : List Char) {fuel : Nat} {cin : IStream} {v : Double}
    {out : List Char} {res : IStream × Double × List Char}
    (h : retryLoop IStream.extractDouble Double.isNeg prompt err fuel cin v out = some res) :
    res.2.1.isNeg = false ∧ (v.finite = true → res.2.1.finite = true) :=
  ⟨(retryLoop_some _ _ _ _ (fun _ => True) (fun _ _ _ => trivial) _ _ _ _ _ trivial h).2,
    fun hv => (retryLoop_some IStream.extractDouble _ _ _ (fun v => v.finite = true)
      (fun s v hv => extractDouble_finite s v hv) _ _ _ _ _ hv h).1⟩

theorem storeText_append (a b : List RecordText) :
    storeText (a ++ b) = storeText a ++ storeText b := by
  induction a with
  | nil => rfl
  | cons x a ih => simp [storeText, ih]

theorem countRecords_store (rs : List RecordText) (hwf : ∀ r ∈ rs, r.wellFormed = true)
    (fuel : Nat) (item : InventoryItem) :
    countRecords (fuel + 1 + rs.length) ⟨storeText rs, false, false⟩ item = rs.length := by
  induction rs generalizing item with
  | nil => simp [countRecords, storeText, readRecord_empty]
  | cons r rs ih =>
    have hr : r.wellFormed = true := hwf r (List.mem_cons_self _ _)
    have hrs : ∀ r ∈ rs, r.wellFormed = true := fun x hx => hwf x (List.mem_cons_of_mem _ hx)
    have e : storeText (r :: rs) = r.text ++ storeText rs := rfl
    rw [e, List.length_cons, ← Nat.add_assoc]
    simp only [countRecords, readRecord_text hr, if_true, IStream.ignore1, IStream.good,
      Bool.not_false, Bool.and_self]
    rw [ih hrs]

theorem ofItem_wellFormed (item : InventoryItem)
    (hd : ∀ c ∈ item.itemDescription, (!isNewline c) = true)
    (h1 : INT_MIN ≤ item.quantityOnHand) (h2 : item.quantityOnHand ≤ INT_MAX)
    (hw : item.wholesaleCost.finite = true) (hr : item.retailCost.finite = true) :
    (RecordText.ofItem item).wellFormed = true := by
  simp only [RecordText.wellFormed, RecordText.ofItem, Bool.and_eq_true, List.all_eq_true]
  exact ⟨⟨⟨hd, by rw [intTokenValue_showInt _ h1 h2]; rfl⟩, floatTokenValue_showDouble _ hw⟩,
    floatTokenValue_showDouble _ hr⟩

theorem ofItem_text (item : InventoryItem) : (RecordText.ofItem item).text = writeRecord item :=
  rfl

theorem wellFormed_no_newline {r : RecordText} (hwf : r.wellFormed = true) :
    ∀ c ∈ r.description ++ r.quantity ++ r.wholesale ++ r.retail, isNewline c = false := by
  intro c hc
  simp only [RecordText.wellFormed, Bool.and_eq_true, List.all_eq_true] at hwf
  obtain ⟨⟨⟨h1, h2⟩, h3⟩, h4⟩ := hwf
  simp only [List.mem_append] at hc
  rcases hc with ((hc | hc) | hc) | hc
  · simpa using h1 c hc
  · exact intToken_no_newline h2 c hc
  · exact floatToken_no_newline h3 c hc
  · exact floatToken_no_newline h4 c hc

/-! ## Trailing data that cannot be read as a record -/

/-- C5. Every record appended by a completed `addRecord` call has a non-negative
quantity, wholesale cost and retail cost; hence a file built by any sequence of
completed `addRecord` calls consists, after its initial content, of the written
form of items that all satisfy the invariant. -/
theorem addRecords_invariant (calls : List (Nat × IStream × InventoryItem)) (file f : FStream)
    (h : addRecords calls file = some f) :
    ∃ items : List InventoryItem, items.length = calls.length
      ∧ f.content = file.content ++ storeOf items
      ∧ ∀ item ∈ items, 0 ≤ item.quantityOnHand ∧ 0 ≤ item.wholesaleCost.value
          ∧ 0 ≤ item.retailCost.value := by
  induction calls generalizing file with
  | nil =>
    simp only [addRecords, Option.some.injEq] at h
    exact ⟨[], rfl, by simp [storeOf, h], by simp⟩
  | cons c calls ih =>
    obtain ⟨fuel, cin, junk⟩ := c
    simp only [addRecords] at h
    split at h
    · cases h
    · rename_i o ho
      obtain ⟨q, w, r, cin2, cin3, cin4, out1, out2, out3, hq, hw, hr, rfl⟩ := addRecord_some ho
      obtain ⟨items, hlen, hcont, hall⟩ := ih _ h
      refine ⟨⟨(cin.ignore1.getline []).2, q, w, r⟩ :: items, by simp [hlen], ?_, ?_⟩
      · rw [hcont]
        simp [FStream.append, storeOf]
      · intro x hx
        rcases List.mem_cons.1 hx with rfl | hx
        · exact ⟨quantityLoop_nonneg hq, Double.value_nonneg _ (costLoop_spec _ _ hw).1,
            Double.value_nonneg _ (costLoop_spec _ _ hr).1⟩
        · exact hall x hx

/-- C6. A completed `addRecord` call leaves the old file content in place and
puts exactly four newline-terminated lines after it, none with a newline
inside: the description read by `getline`, then the quantity, the wholesale
cost and the retail cost that the three validation loops accepted, in that
order and in the form `operator<<` gives them.  These four lines are a
well-formed record; when the old content is a sequence of well-formed records,
the new content is that sequence with this record added, and the number of
records the scan of `displayRecord` reads grows from `rs.length` to
`rs.length + 1`.  The hypotheses on `junk` say that the indeterminate initial
values are some `int` and some finite `double` values. -/
theorem addRecord_appends (fuel : Nat) (cin : IStream) (file : FStream) (junk : InventoryItem)
    (o : Outcome) (hj : INT_MIN ≤ junk.quantityOnHand ∧ junk.quantityOnHand ≤ INT_MAX)
    (hjw : junk.wholesaleCost.finite = true) (hjr : junk.retailCost.finite = true)
    (h : addRecord fuel cin file junk = some o) :
    ∃ (q : Int) (w r : Double) (cin2 cin3 cin4 : IStream) (out1 out2 out3 : List Char),
      quantityLoop fuel (cin.ignore1.getline []).1 junk.quantityOnHand
          "\nEnter item description (Text): ".toList = some (cin2, q, out1)
      ∧ wholesaleLoop fuel cin2 junk.wholesaleCost out1 = some (cin3, w, out2)
      ∧ retailLoop fuel cin3 junk.retailCost out2 = some (cin4, r, out3)
      ∧ o.file.content = file.content ++ ((cin.ignore1.getline []).2 ++ '\n' ::
          (showInt q ++ '\n' :: (showDouble w ++ '\n' :: (showDouble r ++ ['\n']))))
      ∧ (∀ c ∈ (cin.ignore1.getline []).2 ++ showInt q ++ showDouble w ++ showDouble r,
          isNewline c = false)
      ∧ (RecordText.mk (cin.ignore1.getline []).2 (showInt q) (showDouble w)
          (showDouble r)).wellFormed = true
      ∧ ∀ rs : List RecordText, (∀ x ∈ rs, x.wellFormed = true) → file.content = storeText rs →
          o.file.content = storeText (rs ++ [⟨(cin.ignore1.getline []).2, showInt q,
            showDouble w, showDouble r⟩])
          ∧ ∀ item, countRecords (rs.length + 2) (IStream.ofChars file.content) item = rs.length
              ∧ countRecords (rs.length + 2) (IStream.ofChars o.file.content) item
                  = rs.length + 1 := by
  obtain ⟨q, w, r, cin2, cin3, cin4, out1, out2, out3, hq, hw, hr, rfl⟩ := addRecord_some h
  have hq0 := quantityLoop_nonneg hq
  have hqr := quantityLoop_range hj hq
  have hwf : (RecordText.ofItem ⟨(cin.ignore1.getline []).2, q, w, r⟩).wellFormed = true :=
    ofItem_wellFormed _ (getline_no_newline _) hqr.1 hqr.2 ((costLoop_spec _ _ hw).2 hjw)
      ((costLoop_spec _ _ hr).2 hjr)
  refine ⟨q, w, r, cin2, cin3, cin4, out1, out2, out3, hq, hw, hr, rfl,
    wellFormed_no_newline hwf, hwf, ?_⟩
  intro rs hrs hold
  have hnew : file.content ++ ((cin.ignore1.getline []).2 ++ '\n' ::
      (showInt q ++ '\n' :: (showDouble w ++ '\n' :: (showDouble r ++ ['\n']))))
      = storeText (rs ++ [RecordText.ofItem ⟨(cin.ignore1.getline []).2, q, w, r⟩]) := by
    rw [hold, storeText_append]
    simp [storeText, RecordText.text, RecordText.ofItem]
  refine ⟨hnew, fun it => ⟨?_, ?_⟩⟩
  · rw [hold]
    have := countRecords_store rs hrs 1 it
    have e : rs.length + 2 = 1 + 1 + rs.length := by omega
    rw [e]
    exact this
  · have hc : (file.append (writeRecord ⟨(cin.ignore1.getline []).2, q, w, r⟩)).content
        = storeText (rs ++ [RecordText.ofItem ⟨(cin.ignore1.getline []).2, q, w, r⟩]) := hnew
    simp only [hc]
    have hall : ∀ x ∈ rs ++ [RecordText.ofItem ⟨(cin.ignore1.getline []).2, q, w, r⟩],
        x.wellFormed = true := by
      intro x hx
      rcases List.mem_append.1 hx with hx | hx
      · exact hrs x hx
      · rw [List.mem_singleton.1 hx]
        exact hwf
    have := countRecords_store _ hall 0 it
    have e : rs.length + 2
        = 0 + 1 + (rs ++ [RecordText.ofItem ⟨(cin.ignore1.getline []).2, q, w, r⟩]).length := by
      simp only [List.length_append, List.length_singleton]
      omega
    rw [e]
    exact this.trans (by simp)

theorem dropLine_line (n : Nat) (l rest : List Char) (hl : l.length < n)
    (hnl : ∀ c ∈ l, isNewline c = false) : dropLine n (l ++ '\n' :: rest) = (rest, false) := by
  induction l generalizing n with
  | nil =>
    obtain ⟨m, rfl⟩ : ∃ m, n = m + 1 := ⟨n - 1, by simp at hl; omega⟩
    rfl
  | cons c t ih =>
    obtain ⟨m, rfl⟩ : ∃ m, n = m + 1 := ⟨n - 1, by simp at hl; omega⟩
    have hc : isNewline c = false := hnl c (List.mem_cons_self _ _)
    simp only [List.cons_append, dropLine, hc, Bool.false_eq_true, if_false]
    exact ih m (by simp at hl; omega) (fun x hx => hnl x (List.mem_cons_of_mem _ hx))

theorem clear_ignoreLine (s : IStream) :
    s.clear.ignoreLine = ⟨(dropLine 1000 s.buf).1, false, (dropLine 1000 s.buf).2⟩ := by
  simp [IStream.clear, IStream.ignoreLine, IStream.good]

theorem intLoop_step (prompt err : List Char) (fuel : Nat) (cin : IStream) (out : List Char)
    (q q1 : Int) (cinq : IStream) (hq : cin.extractInt q = (cinq, q1))
    (hqf : cinq.fail = false) :
    (q1 < 0 → retryLoop IStream.extractInt (fun q => decide (q < 0)) prompt err (fuel + 1)
        cin q out
        = retryLoop IStream.extractInt (fun q => decide (q < 0)) prompt err fuel
            ⟨(dropLine 1000 cinq.buf).1, false, (dropLine 1000 cinq.buf).2⟩ q1
            (out ++ prompt ++ err))
      ∧ (0 ≤ q1 → retryLoop IStream.extractInt (fun q => decide (q < 0)) prompt err (fuel + 1)
          cin q out = some (cinq, q1, out ++ prompt)) := by
  have eq : (cin.extractInt q).1 = cinq ∧ (cin.extractInt q).2 = q1 := by simp [hq]
  refine ⟨?_, ?_⟩
  · intro h
    have := retryLoop_reject IStream.extractInt (fun q => decide (q < 0)) prompt
      err fuel cin q out (by simp [eq.2, h])
    rw [eq.1, eq.2, clear_ignoreLine] at this
    exact this
  · intro h
    have := retryLoop_accept IStream.extractInt (fun q => decide (q < 0)) prompt
      err fuel cin q out (by rw [eq.1]; exact hqf) (by simp [eq.2, h])
    rw [eq.1, eq.2] at this
    exact this

theorem costLoop_step (prompt err : List Char) (fuel : Nat) (cin : IStream) (out : List Char)
    (w w1 : Double) (cinw : IStream) (hw : cin.extractDouble w = (cinw, w1))
    (hwf : cinw.fail = false) :
    (w1.value < 0 → retryLoop IStream.extractDouble Double.isNeg prompt err (fuel + 1) cin w out
        = retryLoop IStream.extractDouble Double.isNeg prompt err fuel
            ⟨(dropLine 1000 cinw.buf).1, false, (dropLine 1000 cinw.buf).2⟩ w1
            (out ++ prompt ++ err))
      ∧ (0 ≤ w1.value → retryLoop IStream.extractDouble Double.isNeg prompt err (fuel + 1)
          cin w out = some (cinw, w1, out ++ prompt)) := by
  have ew : (cin.extractDouble w).1 = cinw ∧ (cin.extractDouble w).2 = w1 := by simp [hw]
  have hneg : ∀ d : Double, 0 ≤ d.value → d.isNeg = false := by
    intro d hd
    cases hn : d.isNeg with
    | false => rfl
    | true => exact absurd ((Double.isNeg_iff d).1 hn) (not_lt.2 hd)
  refine ⟨?_, ?_⟩
  · intro h
    have := retryLoop_reject IStream.extractDouble Double.isNeg prompt
      err fuel cin w out (by rw [ew.2]; exact (Double.isNeg_iff w1).2 h)
    rw [ew.1, ew.2, clear_ignoreLine] at this
    exact this
  · intro h
    have := retryLoop_accept IStream.extractDouble Double.isNeg prompt
      err fuel cin w out (by rw [ew.1]; exact hwf) (by rw [ew.2]; exact hneg w1 h)
    rw [ew.1, ew.2] at this
    exact this

/-- C4 as amended. In each of the three validation loops of `addRecord`,
separately for each field and whatever the other fields would make of the
same input: a value that is extracted without error and is negative makes
the loop print its error message and run again for the same field, after
dropping at most 1000 further characters of the input (the whole rest of the
line when its newline is among them); a value that is extracted without error
and is not negative ends the loop and is the value accepted; and no loop ever
ends with a negative value. -/
theorem negative_entry_rejected (fuel : Nat) (cin : IStream) (out : List Char)
    (q : Int) (w : Double) :
    (∀ (cinq : IStream) (q1 : Int), cin.extractInt q = (cinq, q1) → cinq.fail = false →
        (q1 < 0 → quantityLoop (fuel + 1) cin q out
          = quantityLoop fuel ⟨(dropLine 1000 cinq.buf).1, false, (dropLine 1000 cinq.buf).2⟩
              q1 (out ++ "Enter quantity on hand (Int): ".toList
                ++ "Error: Quantity must be a non-negative integer.\n".toList))
        ∧ (0 ≤ q1 → quantityLoop (fuel + 1) cin q out
            = some (cinq, q1, out ++ "Enter quantity on hand (Int): ".toList)))
      ∧ (∀ (cinw : IStream) (w1 : Double), cin.extractDouble w = (cinw, w1) →
          cinw.fail = false →
          (w1.value < 0 → wholesaleLoop (fuel + 1) cin w out
            = wholesaleLoop fuel
                ⟨(dropLine 1000 cinw.buf).1, false, (dropLine 1000 cinw.buf).2⟩ w1
                (out ++ "Enter wholesale cost (Double): ".toList
                  ++ "Error: Wholesale cost must be a non-negative value.\n".toList))
          ∧ (0 ≤ w1.value → wholesaleLoop (fuel + 1) cin w out
              = some (cinw, w1, out ++ "Enter wholesale cost (Double): ".toList))
          ∧ (w1.value < 0 → retailLoop (fuel + 1) cin w out
              = retailLoop fuel
                  ⟨(dropLine 1000 cinw.buf).1, false, (dropLine 1000 cinw.buf).2⟩ w1
                  (out ++ "Enter retail cost (Double): ".toList
                    ++ "Error: Retail cost must be a non-negative value.\n".toList))
          ∧ (0 ≤ w1.value → retailLoop (fuel + 1) cin w out
              = some (cinw, w1, out ++ "Enter retail cost (Double): ".toList)))
      ∧ (∀ (l rest : List Char), l.length < 1000 → (∀ c ∈ l, isNewline c = false) →
          dropLine 1000 (l ++ '\n' :: rest) = (rest, false))
      ∧ (∀ n s v o res, quantityLoop n s v o = some res → 0 ≤ res.2.1)
      ∧ (∀ n s v o res, wholesaleLoop n s v o = some res → 0 ≤ res.2.1.value)
      ∧ (∀ n s v o res, retailLoop n s v o = some res → 0 ≤ res.2.1.value) := by
  refine ⟨?_, ?_, ?_, ?_, ?_, ?_⟩
  · intro cinq q1 hq hqf
    exact intLoop_step quantityPrompt quantityError fuel cin out q q1 cinq hq hqf
  · intro cinw w1 hw hwf
    have h1 := costLoop_step wholesalePrompt wholesaleError fuel cin out w w1 cinw hw hwf
    have h2 := costLoop_step retailPrompt retailError fuel cin out w w1 cinw hw hwf
    exact ⟨h1.1, h1.2, h2.1, h2.2⟩
  · intro l rest hl hnl
    exact dropLine_line 1000 l rest hl hnl
  · intro n s v o res h
    exact quantityLoop_nonneg h
  · intro n s v o res h
    exact Double.value_nonneg _ (costLoop_spec _ _ h).1
  · intro n s v o res h
    exact Double.value_nonneg _ (costLoop_spec _ _ h).1

/-! ## Claims about `displayRecord` -/

/-- C2. On a store file made of exactly `rs.length` well-formed records, a record
number `n` greater than `rs.length` makes `displayRecord` print its prompt and
the line "Error: Record not found." and nothing else; the scan has then used
up the file. -/
theorem displayRecord_beyond_end (rs : List RecordText) (hwf : ∀ r ∈ rs, r.wellFormed = true)
    (file : FStream) (hfile : file.content = storeText rs) (cin cin1 : IStream)
    (junkNumber n : Int) (hx : cin.extractInt junkNumber = (cin1, n)) (hok : cin1.fail = false)
    (hn : (rs.length : Int) < n) (fuel : Nat) (hfuel : rs.length < fuel) (junk : InventoryItem) :
    displayRecord fuel cin file junkNumber junk
      = some ⟨cin1, ⟨file.content, ⟨[], true, true⟩⟩,
          "\nEnter record number to display: ".toList
            ++ "\nError: Record not found.\n".toList⟩ := by
  have hbad : ∀ item, (readRecord ⟨[], false, false⟩ item).2.2 = false := by
    intro item
    rw [readRecord_empty]
  have h := scanLoop_beyond n rs hwf [] hbad hn fuel hfuel { junk with itemDescription := [] }
  simp only [List.append_nil, readRecord_empty] at h
  simp only [displayRecord, hx, hok, Bool.false_eq_true, if_false, FStream.rewind, hfile, h]
  rfl

/-- C7. When the record number cannot be extracted (`cin.fail()` holds after
`cin >> recordNumber`), `displayRecord` prints its prompt and the line
"Error: Invalid input. Please enter a valid record number." and returns: the
output is neither a record nor "Record not found.", and the file stream,
content and reading position, is exactly as before. -/
theorem displayRecord_invalid_number (fuel : Nat) (cin : IStream) (file : FStream)
    (junkNumber : Int) (junk : InventoryItem)
    (h : (cin.extractInt junkNumber).1.fail = true) :
    displayRecord fuel cin file junkNumber junk
        = some ⟨(cin.extractInt junkNumber).1.clear.ignoreLine, file,
            "\nEnter record number to display: ".toList
              ++ "Error: Invalid input. Please enter a valid record number.\n".toList⟩
      ∧ "\nEnter record number to display: ".toList
            ++ "Error: Invalid input. Please enter a valid record number.\n".toList
          ≠ "\nEnter record number to display: ".toList ++ "\nError: Record not found.\n".toList
      ∧ ∀ (n : Int) (item : InventoryItem),
          "\nEnter record number to display: ".toList
              ++ "Error: Invalid input. Please enter a valid record number.\n".toList
            ≠ "\nEnter record number to display: ".toList
              ++ ("\nRecord #".toList ++ showInt n ++ ":\n".toList
                ++ "Item Description: ".toList ++ item.itemDescription ++ ['\n']
                ++ "Quantity on hand: ".toList ++ showInt item.quantityOnHand ++ ['\n']
                ++ "Wholesale cost  : $".toList ++ showFixed2 item.wholesaleCost ++ ['\n']
                ++ "Retail cost     : $".toList ++ showFixed2 item.retailCost ++ ['\n']) := by
  refine ⟨?_, ?_, ?_⟩
  · simp only [displayRecord, h, if_true]
    rfl
  · decide
  · intro n item hne
    have := List.append_cancel_left hne
    simp at this

/-- C10. A record number `n ≤ 0` is extracted without error, and `displayRecord`
then prints its prompt and the line "Error: Record not found." while the file
stream is left rewound with its whole content unread. -/
theorem displayRecord_nonpositive (fuel : Nat) (cin cin1 : IStream) (file : FStream)
    (junkNumber n : Int) (junk : InventoryItem)
    (hx : cin.extractInt junkNumber = (cin1, n)) (hok : cin1.fail = false) (hn : n ≤ 0) :
    displayRecord (fuel + 1) cin file junkNumber junk
      = some ⟨cin1, ⟨file.content, ⟨file.content, false, false⟩⟩,
          "\nEnter record number to display: ".toList
            ++ "\nError: Record not found.\n".toList⟩ := by
  have h1 : ¬ (1 : Int) ≤ n := by omega
  simp only [displayRecord, hx, hok, Bool.false_eq_true, if_false, scanLoop, h1,
    FStream.rewind]
  rfl

/-- What survives the way through the file: on a store of well-formed records
`rs` followed by the lines written for `item`, record number `rs.length + 1`
is printed with the description and the quantity of `item` and with its two
costs as they are read back from their six significant digits. -/
theorem displayRecord_written_item (rs : List RecordText)
    (hwf : ∀ r ∈ rs, r.wellFormed = true) (item : InventoryItem)
    (hd : ∀ c ∈ item.itemDescription, (!isNewline c) = true)
    (h1 : INT_MIN ≤ item.quantityOnHand) (h2 : item.quantityOnHand ≤ INT_MAX)
    (hfw : item.wholesaleCost.finite = true) (hfr : item.retailCost.finite = true)
    (file : FStream) (hfile : file.content = storeText rs ++ writeRecord item)
    (cin cin1 : IStream) (junkNumber : Int)
    (hx : cin.extractInt junkNumber = (cin1, (rs.length : Int) + 1)) (hok : cin1.fail = false)
    (fuel : Nat) (hfuel : rs.length < fuel) (junk : InventoryItem) :
    displayRecord fuel cin file junkNumber junk
      = some ⟨cin1, ⟨file.content, ⟨[], false, false⟩⟩,
          recordPrompt ++ renderRecord ((rs.length : Int) + 1)
            ⟨item.itemDescription, item.quantityOnHand, storedCost item.wholesaleCost,
              storedCost item.retailCost⟩⟩ := by
  have hr := ofItem_wellFormed item hd h1 h2 hfw hfr
  have hall : ∀ x ∈ rs ++ [RecordText.ofItem item], x.wellFormed = true := by
    intro x hx1
    rcases List.mem_append.1 hx1 with hx1 | hx1
    · exact hwf x hx1
    · rw [List.mem_singleton.1 hx1]
      exact hr
  have hget : (rs ++ [RecordText.ofItem item])[rs.length]? = some (RecordText.ofItem item) := by
    simp
  have h := scanLoop_found (rs ++ [RecordText.ofItem item]) hall [] rs.length _ hget fuel hfuel
    { junk with itemDescription := [] }
  have hdrop : (rs ++ [RecordText.ofItem item]).drop (rs.length + 1) = [] := by
    simp
  have hitem : (RecordText.ofItem item).item = ⟨item.itemDescription, item.quantityOnHand,
      storedCost item.wholesaleCost, storedCost item.retailCost⟩ := by
    simp [RecordText.item, RecordText.ofItem, storedCost, intTokenValue_showInt _ h1 h2]
  have hcontent : file.content = storeText (rs ++ [RecordText.ofItem item]) ++ [] := by
    rw [hfile, storeText_append]
    simp [storeText, ofItem_text]
  rw [hdrop, hitem] at h
  simp only [storeText, List.append_nil] at h hcontent
  rw [← hcontent] at h
  simp only [displayRecord, hx, hok, Bool.false_eq_true, if_false, FStream.rewind, h]

/-! ## Concrete runs -/

set_option maxRecDepth 100000 in
set_option exponentiation.threshold 3000 in
/-- C8. Starting from an empty store, `addRecord` with the entry "Widget", 10,
2.50, 5.00 followed by `displayRecord` with record number 1 prints the
description "Widget", the quantity 10 and the costs "$2.50" and "$5.00",
whatever the indeterminate initial values of the locals are. -/
theorem widget_example (fuel : Nat) (junk junk2 : InventoryItem) (junkNumber : Int) :
    addRecord (fuel + 1) (IStream.ofChars "\nWidget\n10\n2.50\n5.00\n1\n".toList)
        (FStream.open []) junk
      = some ⟨⟨"\n1\n".toList, false, false⟩,
          ⟨"Widget\n10\n2.5\n5\n".toList, ⟨[], false, false⟩⟩,
          "\nEnter item description (Text): ".toList ++ quantityPrompt ++ wholesalePrompt
            ++ retailPrompt ++ "\nRecord added successfully.\n".toList⟩
    ∧ displayRecord (fuel + 1) ⟨"\n1\n".toList, false, false⟩
        ⟨"Widget\n10\n2.5\n5\n".toList, ⟨[], false, false⟩⟩ junkNumber junk2
      = some ⟨⟨['\n'], false, false⟩, ⟨"Widget\n10\n2.5\n5\n".toList, ⟨[], false, false⟩⟩,
          recordPrompt ++ "\nRecord #1:\nItem Description: Widget\n".toList
            ++ "Quantity on hand: 10\nWholesale cost  : $2.50\n".toList
            ++ "Retail cost     : $5.00\n".toList⟩ := by
  have hshow : renderRecord 1 ⟨"Widget".toList, 10, (Decimal.mk false 25 (-1)).toDouble,
        (Decimal.mk false 5 0).toDouble⟩
      = "\nRecord #1:\nItem Description: Widget\n".toList
        ++ "Quantity on hand: 10\nWholesale cost  : $2.50\n".toList
        ++ "Retail cost     : $5.00\n".toList := by decide
  have hdisp : displayRecord (fuel + 1) ⟨"\n1\n".toList, false, false⟩
        ⟨"Widget\n10\n2.5\n5\n".toList, ⟨[], false, false⟩⟩ junkNumber junk2
      = some ⟨⟨['\n'], false, false⟩, ⟨"Widget\n10\n2.5\n5\n".toList, ⟨[], false, false⟩⟩,
          recordPrompt ++ renderRecord 1 ⟨"Widget".toList, 10,
            (Decimal.mk false 25 (-1)).toDouble, (Decimal.mk false 5 0).toDouble⟩⟩ :=
    rfl
  refine ⟨rfl, ?_⟩
  rw [hdisp, hshow]
  simp only [List.append_assoc]

set_option maxRecDepth 100000 in
set_option exponentiation.threshold 3000 in
/-- C1, failing input. Starting from an empty store, `addRecord` with the entry
"Engine", 1, 12345.67, 5.00 writes the wholesale cost as `12345.7`, and
`displayRecord` with record number 1 then prints "$12345.70". -/
theorem engine_roundtrip (fuel : Nat) (junk junk2 : InventoryItem) (junkNumber : Int) :
    addRecord (fuel + 1) (IStream.ofChars "\nEngine\n1\n12345.67\n5.00\n1\n".toList)
        (FStream.open []) junk
      = some ⟨⟨"\n1\n".toList, false, false⟩,
          ⟨"Engine\n1\n12345.7\n5\n".toList, ⟨[], false, false⟩⟩,
          "\nEnter item description (Text): ".toList ++ quantityPrompt ++ wholesalePrompt
            ++ retailPrompt ++ "\nRecord added successfully.\n".toList⟩
    ∧ displayRecord (fuel + 1) ⟨"\n1\n".toList, false, false⟩
        ⟨"Engine\n1\n12345.7\n5\n".toList, ⟨[], false, false⟩⟩ junkNumber junk2
      = some ⟨⟨['\n'], false, false⟩, ⟨"Engine\n1\n12345.7\n5\n".toList, ⟨[], false, false⟩⟩,
          recordPrompt ++ "\nRecord #1:\nItem Description: Engine\n".toList
            ++ "Quantity on hand: 1\nWholesale cost  : $12345.70\n".toList
            ++ "Retail cost     : $5.00\n".toList⟩ := by
  have hshow : renderRecord 1 ⟨"Engine".toList, 1, (Decimal.mk false 123457 (-1)).toDouble,
        (Decimal.mk false 5 0).toDouble⟩
      = "\nRecord #1:\nItem Description: Engine\n".toList
        ++ "Quantity on hand: 1\nWholesale cost  : $12345.70\n".toList
        ++ "Retail cost     : $5.00\n".toList := by decide
  have hdisp : displayRecord (fuel + 1) ⟨"\n1\n".toList, false, false⟩
        ⟨"Engine\n1\n12345.7\n5\n".toList, ⟨[], false, false⟩⟩ junkNumber junk2
      = some ⟨⟨['\n'], false, false⟩, ⟨"Engine\n1\n12345.7\n5\n".toList, ⟨[], false, false⟩⟩,
          recordPrompt ++ renderRecord 1 ⟨"Engine".toList, 1,
            (Decimal.mk false 123457 (-1)).toDouble, (Decimal.mk false 5 0).toDouble⟩⟩ :=
    rfl
  refine ⟨rfl, ?_⟩
  rw [hdisp, hshow]
  simp only [List.append_assoc]

set_option maxRecDepth 100000 in
set_option exponentiation.threshold 3000 in
/-- C3, failing input. With the non-numeric lines `abc`, `xyz` and `?` entered
for the quantity and the two costs, each loop prints its error message once
and ends at once: the next prompt is for the next field, and the record is
written with `0` in all three numeric fields. -/
theorem nonnumeric_accepted_as_zero (fuel : Nat) (junk : InventoryItem) :
    addRecord (fuel + 1) (IStream.ofChars "\nWidget\nabc\nxyz\n?\n".toList) (FStream.open []) junk
      = some ⟨⟨[], false, false⟩, ⟨"Widget\n0\n0\n0\n".toList, ⟨[], false, false⟩⟩,
          "\nEnter item description (Text): ".toList
            ++ quantityPrompt ++ quantityError
            ++ wholesalePrompt ++ wholesaleError
            ++ retailPrompt ++ retailError
            ++ "\nRecord added successfully.\n".toList⟩ :=
  rfl

set_option maxRecDepth 100000 in
/-- C4, counterexample. On the single input line made of `-1`, a thousand `x`
and `7`, the quantity loop rejects `-1` but drops only the thousand `x`: the
`7` that ends the same line is read by the next round and accepted. -/
theorem long_line_not_discarded :
    quantityLoop 2
        (IStream.ofChars ("-1".toList ++ List.replicate 1000 'x' ++ "7\n".toList)) (-1) []
      = some (⟨['\n'], false, false⟩, 7, quantityPrompt ++ quantityError ++ quantityPrompt) := by
  decide

set_option maxRecDepth 100000 in
set_option exponentiation.threshold 3000 in
/-- The `double` model at inputs where decimal and binary rounding differ and at
the ends of the range: 2.675 and 1.115 print as 2.67 and 1.11 with two
decimals, 0.1234575 and 99999.95 are written as 0.123457 and 99999.9, the
numeral 1e999 sets `failbit` and stores the largest `double`, and -1e-400 is
read without error as a zero that is not negative. -/
theorem double_samples :
    showFixed2 ((IStream.ofChars "2.675".toList).extractDouble Double.zero).2 = "2.67".toList
      ∧ showFixed2 ((IStream.ofChars "1.115".toList).extractDouble Double.zero).2
          = "1.11".toList
      ∧ showDouble ((IStream.ofChars "0.1234575".toList).extractDouble Double.zero).2
          = "0.123457".toList
      ∧ showDouble ((IStream.ofChars "99999.95".toList).extractDouble Double.zero).2
          = "99999.9".toList
      ∧ ((IStream.ofChars "1e999".toList).extractDouble Double.zero).1.fail = true
      ∧ showDouble ((IStream.ofChars "1e999".toList).extractDouble Double.zero).2
          = "1.79769e+308".toList
      ∧ ((IStream.ofChars "-1e-400".toList).extractDouble Double.zero).1.fail = false
      ∧ ((IStream.ofChars "-1e-400".toList).extractDouble Double.zero).2.isNeg = false
      ∧ widgetRecord.wellFormed = true
      ∧ (RecordText.mk "Widget".toList "1".toList "1e999".toList "5".toList).wellFormed = false := by
  decide

/-! ## Instances of the general theorems -/

set_option maxRecDepth 100000 in
set_option exponentiation.threshold 3000 in
/-- C2 at the example of the specification (with zero records in the file,
record number 1 yields "Record not found.") and at a file of two records with
record number 3. -/
theorem displayRecord_beyond_end_witness :
    displayRecord 1 (IStream.ofChars "1\n".toList) (FStream.open []) 0 junkItem
        = some ⟨⟨['\n'], false, false⟩, ⟨[], ⟨[], true, true⟩⟩,
            "\nEnter record number to display: ".toList
              ++ "\nError: Record not found.\n".toList⟩
      ∧ displayRecord 3 (IStream.ofChars "3\n".toList)
          (FStream.open (storeText [widgetRecord, gadgetRecord])) 0 junkItem
        = some ⟨⟨['\n'], false, false⟩,
            ⟨(FStream.open (storeText [widgetRecord, gadgetRecord])).content, ⟨[], true, true⟩⟩,
            "\nEnter record number to display: ".toList
              ++ "\nError: Record not found.\n".toList⟩ :=
  ⟨displayRecord_beyond_end [] (by decide) (FStream.open []) rfl (IStream.ofChars "1\n".toList)
      ⟨['\n'], false, false⟩ 0 1 (by decide) rfl (by decide) 1 (by decide) junkItem,
    displayRecord_beyond_end [widgetRecord, gadgetRecord] (by decide)
      (FStream.open (storeText [widgetRecord, gadgetRecord])) rfl
      (IStream.ofChars "3\n".toList) ⟨['\n'], false, false⟩ 0 3 (by decide) rfl (by decide) 3
      (by decide) junkItem⟩

set_option maxRecDepth 100000 in
set_option exponentiation.threshold 3000 in
/-- C5 at two calls, the second with a rejected negative quantity and cost. -/
theorem addRecords_invariant_witness :
    addRecords
        [(1, IStream.ofChars "\nWidget\n10\n2.50\n5.00\n".toList, junkItem),
         (2, IStream.ofChars "\nBolt\n-3\n4\n-1\n0.5\n0\n".toList, junkItem)] (FStream.open [])
      = some ⟨"Widget\n10\n2.5\n5\nBolt\n4\n0.5\n0\n".toList, ⟨[], false, false⟩⟩
    ∧ ∃ items : List InventoryItem, items.length = 2
      ∧ "Widget\n10\n2.5\n5\nBolt\n4\n0.5\n0\n".toList = [] ++ storeOf items
      ∧ ∀ item ∈ items, 0 ≤ item.quantityOnHand ∧ 0 ≤ item.wholesaleCost.value
          ∧ 0 ≤ item.retailCost.value :=
  ⟨by decide, addRecords_invariant
    [(1, IStream.ofChars "\nWidget\n10\n2.50\n5.00\n".toList, junkItem),
     (2, IStream.ofChars "\nBolt\n-3\n4\n-1\n0.5\n0\n".toList, junkItem)] (FStream.open [])
    ⟨"Widget\n10\n2.5\n5\nBolt\n4\n0.5\n0\n".toList, ⟨[], false, false⟩⟩ (by decide)⟩

set_option maxRecDepth 100000 in
/-- C7 at the input `abc`. -/
theorem displayRecord_invalid_number_witness :
    ((IStream.ofChars "abc\n".toList).extractInt 0).1.fail = true
      ∧ displayRecord 0 (IStream.ofChars "abc\n".toList)
          (FStream.open "Widget\n10\n2.5\n5\n".toList) 0 junkItem
        = some ⟨⟨[], false, false⟩, FStream.open "Widget\n10\n2.5\n5\n".toList,
            "\nEnter record number to display: ".toList
              ++ "Error: Invalid input. Please enter a valid record number.\n".toList⟩ :=
  ⟨by decide, (displayRecord_invalid_number 0 (IStream.ofChars "abc\n".toList)
    (FStream.open "Widget\n10\n2.5\n5\n".toList) 0 junkItem (by decide)).1⟩

set_option maxRecDepth 100000 in
/-- C10 at the inputs `-3` and `0` on a file with one record. -/
theorem displayRecord_nonpositive_witness :
    displayRecord 1 (IStream.ofChars "-3\n".toList)
        (FStream.open "Widget\n10\n2.5\n5\n".toList) 0 junkItem
      = some ⟨⟨['\n'], false, false⟩,
          ⟨"Widget\n10\n2.5\n5\n".toList, ⟨"Widget\n10\n2.5\n5\n".toList, false, false⟩⟩,
          "\nEnter record number to display: ".toList
            ++ "\nError: Record not found.\n".toList⟩
    ∧ displayRecord 1 (IStream.ofChars "0\n".toList)
        (FStream.open "Widget\n10\n2.5\n5\n".toList) 0 junkItem
      = some ⟨⟨['\n'], false, false⟩,
          ⟨"Widget\n10\n2.5\n5\n".toList, ⟨"Widget\n10\n2.5\n5\n".toList, false, false⟩⟩,
          "\nEnter record number to display: ".toList
            ++ "\nError: Record not found.\n".toList⟩ :=
  ⟨displayRecord_nonpositive 0 (IStream.ofChars "-3\n".toList) ⟨['\n'], false, false⟩
      (FStream.open "Widget\n10\n2.5\n5\n".toList) 0 (-3) junkItem (by decide) rfl (by decide),
    displayRecord_nonpositive 0 (IStream.ofChars "0\n".toList) ⟨['\n'], false, false⟩
      (FStream.open "Widget\n10\n2.5\n5\n".toList) 0 0 junkItem (by decide) rfl (by decide)⟩

set_option maxRecDepth 100000 in
set_option exponentiation.threshold 3000 in
/-- C6 at a call that adds the record `Bolt, 4, 0.5, 0` to a file holding one
record, after a rejected quantity `-3` and a rejected wholesale cost `-1`. -/
theorem addRecord_appends_witness :
    (INT_MIN ≤ junkItem.quantityOnHand ∧ junkItem.quantityOnHand ≤ INT_MAX)
      ∧ junkItem.wholesaleCost.finite = true ∧ junkItem.retailCost.finite = true
      ∧ addRecord 2 (IStream.ofChars "\nBolt\n-3\n4\n-1\n0.5\n0\n".toList)
          (FStream.open "Widget\n10\n2.5\n5\n".toList) junkItem
        = some ⟨⟨['\n'], false, false⟩,
            ⟨"Widget\n10\n2.5\n5\nBolt\n4\n0.5\n0\n".toList, ⟨[], false, false⟩⟩,
            "\nEnter item description (Text): ".toList
              ++ "Enter quantity on hand (Int): ".toList
              ++ "Error: Quantity must be a non-negative integer.\n".toList
              ++ "Enter quantity on hand (Int): ".toList
              ++ "Enter wholesale cost (Double): ".toList
              ++ "Error: Wholesale cost must be a non-negative value.\n".toList
              ++ "Enter wholesale cost (Double): ".toList
              ++ "Enter retail cost (Double): ".toList
              ++ "\nRecord added successfully.\n".toList⟩
      ∧ ∃ (q : Int) (w r : Double) (cin2 cin3 cin4 : IStream) (out1 out2 out3 : List Char),
        quantityLoop 2 ((IStream.ofChars "\nBolt\n-3\n4\n-1\n0.5\n0\n".toList).ignore1.getline []).1
            junkItem.quantityOnHand "\nEnter item description (Text): ".toList
          = some (cin2, q, out1)
        ∧ wholesaleLoop 2 cin2 junkItem.wholesaleCost out1 = some (cin3, w, out2)
        ∧ retailLoop 2 cin3 junkItem.retailCost out2 = some (cin4, r, out3)
        ∧ "Widget\n10\n2.5\n5\nBolt\n4\n0.5\n0\n".toList
            = "Widget\n10\n2.5\n5\n".toList
              ++ (((IStream.ofChars "\nBolt\n-3\n4\n-1\n0.5\n0\n".toList).ignore1.getline []).2
                ++ '\n' :: (showInt q ++ '\n' :: (showDouble w ++ '\n' ::
                  (showDouble r ++ ['\n'])))) :=
  ⟨by decide, by decide, by decide, by decide,
    let ⟨q, w, r, c2, c3, c4, o1, o2, o3, h1, h2, h3, h4, _⟩ :=
      addRecord_appends 2 (IStream.ofChars "\nBolt\n-3\n4\n-1\n0.5\n0\n".toList)
        (FStream.open "Widget\n10\n2.5\n5\n".toList) junkItem
        ⟨⟨['\n'], false, false⟩,
          ⟨"Widget\n10\n2.5\n5\nBolt\n4\n0.5\n0\n".toList, ⟨[], false, false⟩⟩,
          "\nEnter item description (Text): ".toList
            ++ "Enter quantity on hand (Int): ".toList
            ++ "Error: Quantity must be a non-negative integer.\n".toList
            ++ "Enter quantity on hand (Int): ".toList
            ++ "Enter wholesale cost (Double): ".toList
            ++ "Error: Wholesale cost must be a non-negative value.\n".toList
            ++ "Enter wholesale cost (Double): ".toList
            ++ "Enter retail cost (Double): ".toList
            ++ "\nRecord added successfully.\n".toList⟩
        (by decide) (by decide) (by decide) (by decide)
    ⟨q, w, r, c2, c3, c4, o1, o2, o3, h1, h2, h3, h4⟩⟩

set_option maxRecDepth 100000 in
set_option exponentiation.threshold 3000 in
/-- C4 as amended, at the quantity line `-5 junk` and at the cost lines `-.5`
and `.99`, which do not read as an `int`: each loop runs again after the
negative value, on the input that follows its line, and the cost loops accept
`.99`. -/
theorem negative_entry_rejected_witness :
    (IStream.ofChars "-5 junk\n7\n".toList).extractInt (-1)
        = (⟨" junk\n7\n".toList, false, false⟩, -5)
      ∧ quantityLoop 2 (IStream.ofChars "-5 junk\n7\n".toList) (-1) []
        = quantityLoop 1 ⟨(dropLine 1000 " junk\n7\n".toList).1, false,
            (dropLine 1000 " junk\n7\n".toList).2⟩ (-5)
            ([] ++ "Enter quantity on hand (Int): ".toList
              ++ "Error: Quantity must be a non-negative integer.\n".toList)
      ∧ ((IStream.ofChars "-.5\n.99\n".toList).extractInt (-1)).1.fail = true
      ∧ (IStream.ofChars "-.5\n.99\n".toList).extractDouble Double.zero
        = (⟨"\n.99\n".toList, false, false⟩, (Decimal.mk true 5 (-1)).toDouble)
      ∧ wholesaleLoop 2 (IStream.ofChars "-.5\n.99\n".toList) Double.zero []
        = wholesaleLoop 1 ⟨(dropLine 1000 "\n.99\n".toList).1, false,
            (dropLine 1000 "\n.99\n".toList).2⟩ (Decimal.mk true 5 (-1)).toDouble
            ([] ++ "Enter wholesale cost (Double): ".toList
              ++ "Error: Wholesale cost must be a non-negative value.\n".toList)
      ∧ retailLoop 1 (IStream.ofChars ".99\n".toList) Double.zero []
        = some (⟨"\n".toList, false, false⟩, (Decimal.mk false 99 (-2)).toDouble,
            [] ++ "Enter retail cost (Double): ".toList) :=
  ⟨by decide,
    ((negative_entry_rejected 1 (IStream.ofChars "-5 junk\n7\n".toList) [] (-1)
      Double.zero).1 ⟨" junk\n7\n".toList, false, false⟩ (-5) (by decide) rfl).1 (by decide),
    by decide, by decide,
    ((negative_entry_rejected 1 (IStream.ofChars "-.5\n.99\n".toList) [] (-1)
      Double.zero).2.1 ⟨"\n.99\n".toList, false, false⟩ (Decimal.mk true 5 (-1)).toDouble
      (by decide) rfl).1 ((Double.isNeg_iff _).1 (by decide)),
    ((negative_entry_rejected 0 (IStream.ofChars ".99\n".toList) [] (-1)
      Double.zero).2.1 ⟨"\n".toList, false, false⟩ (Decimal.mk false 99 (-2)).toDouble
      (by decide) rfl).2.2.2 (Double.value_nonneg _ (by decide))⟩

end Inventory
